import Mathlib

/-!
# Verification of the chat-session gateway core

Shallow embedding of the resilience subsystems of the gateway
(`src/core/circuit_breaker.py`, `src/core/rate_limiter.py`,
`src/core/cache_manager.py`, `src/core/input_validator.py`,
`src/core/claude_handler.py`) together with proofs and refutations of the
stated behavioural properties.

Wall-clock time is modelled by `ℚ` (seconds, as returned by `time.time()` /
`datetime.now()` differences).  Machine floats carrying timestamps, token
counts and costs are modelled by `ℚ`/`Nat` since the code only adds and
compares them.
-/

/-- Python `int(q)` on a float: truncation toward zero. -/
def truncRat (q : ℚ) : Int := if 0 ≤ q then ⌊q⌋ else ⌈q⌉

namespace CircuitBreaker

/-! ## Circuit breaker (`src/core/circuit_breaker.py`, class `CircuitBreaker`)

State machine with explicit clock parameter `now`; `datetime.now()` calls in
the source become the `now` argument.  Fields irrelevant to control flow
(`name`, statistics, logging, the asyncio lock) are omitted. -/

/-- `CircuitState` enum.  (`opened` stands for the Python `OPEN` member;
`open` is a Lean keyword.) -/
inductive CircuitState
  | closed
  | opened
  | halfOpen
deriving DecidableEq, Repr

/-- Constructor parameters of `CircuitBreaker.__init__` that drive the
transitions. -/
structure Config where
  failure_threshold : Nat
  recovery_timeout : Int
  success_threshold : Nat
deriving Repr

/-- Mutable state of a `CircuitBreaker` instance. -/
structure Breaker where
  state : CircuitState
  failure_count : Nat
  success_count : Nat
  last_failure_time : Option ℚ
  last_success_time : Option ℚ
deriving Repr, DecidableEq

/-- `CircuitBreaker._transition_to`: counters are reset when entering
CLOSED or HALF_OPEN; a self-transition is a no-op. -/
def transitionTo (b : Breaker) (s : CircuitState) : Breaker :=
  if b.state = s then b
  else
    let b' : Breaker := { b with state := s }
    match s with
    | .closed => { b' with failure_count := 0, success_count := 0 }
    | .halfOpen => { b' with failure_count := 0, success_count := 0 }
    | .opened => b'

/-- `CircuitBreaker._get_current_state`: in OPEN, once
`recovery_timeout` seconds have elapsed since the last failure the breaker
moves to HALF_OPEN; the possibly-updated state is returned. -/
def getCurrentState (cfg : Config) (b : Breaker) (now : ℚ) : CircuitState × Breaker :=
  if b.state = .opened then
    match b.last_failure_time with
    | some lf =>
        if (cfg.recovery_timeout : ℚ) ≤ now - lf then
          let b' := transitionTo b .halfOpen
          (b'.state, b')
        else (b.state, b)
    | none => (b.state, b)
  else (b.state, b)

/-- `CircuitBreaker._get_remaining_timeout`: seconds left of the cool-down,
clamped at zero (`int(elapsed)` truncates). -/
def remainingTimeout (cfg : Config) (b : Breaker) (now : ℚ) : Int :=
  match b.last_failure_time with
  | some lf => max 0 (cfg.recovery_timeout - truncRat (now - lf))
  | none => 0

/-- `CircuitBreaker._on_success`. -/
def onSuccess (cfg : Config) (b : Breaker) (now : ℚ) : Breaker :=
  let b := { b with last_success_time := some now }
  match b.state with
  | .halfOpen =>
      let b := { b with success_count := b.success_count + 1 }
      if cfg.success_threshold ≤ b.success_count then transitionTo b .closed else b
  | .closed => { b with failure_count := 0 }
  | .opened => b

/-- `CircuitBreaker._on_failure`. -/
def onFailure (cfg : Config) (b : Breaker) (now : ℚ) : Breaker :=
  let b := { b with failure_count := b.failure_count + 1, last_failure_time := some now }
  match b.state with
  | .halfOpen => transitionTo b .opened
  | .closed =>
      if cfg.failure_threshold ≤ b.failure_count then transitionTo b .opened else b
  | .opened => b

/-- Outcome of the admission guard at the top of `CircuitBreaker.call`. -/
inductive CallOutcome
  | rejected (remaining : Int)
  | admitted
deriving DecidableEq, Repr

/-- The guard of `CircuitBreaker.call`: inspect the current state (which may
transition OPEN → HALF_OPEN) and reject with the remaining cool-down when
still OPEN. -/
def callGuard (cfg : Config) (b : Breaker) (now : ℚ) : CallOutcome × Breaker :=
  let sb := getCurrentState cfg b now
  if sb.1 = .opened then (.rejected (remainingTimeout cfg sb.2 now), sb.2)
  else (.admitted, sb.2)

end CircuitBreaker

namespace CircuitBreaker

theorem transitionTo_state (b : Breaker) (s : CircuitState) :
    (transitionTo b s).state = s := by
  unfold transitionTo
  by_cases h : b.state = s
  · simp [h]
  · simp only [if_neg h]
    cases s <;> rfl

end CircuitBreaker

/-- C3: circuit-breaker step behaviour.  (1) in CLOSED, a failure that
reaches `failure_threshold` opens the circuit, (2) and one that does not
leaves it CLOSED; (3) in OPEN with `recovery_timeout` elapsed since the last
failure, the next inspected call transitions to HALF_OPEN and is admitted;
(4) in OPEN before the timeout, the call is rejected with the remaining
cool-down seconds and the state stays OPEN; (5) in HALF_OPEN, a success that
accumulates `success_threshold` successes closes the circuit; (6) in
HALF_OPEN, a single counted failure reopens it; (7) in CLOSED, any success
resets the failure counter to zero. -/
theorem circuit_breaker_step_behaviour (cfg : CircuitBreaker.Config) :
    (∀ b now, b.state = .closed →
      cfg.failure_threshold ≤ b.failure_count + 1 →
      (CircuitBreaker.onFailure cfg b now).state = .opened) ∧
    (∀ b now, b.state = .closed →
      b.failure_count + 1 < cfg.failure_threshold →
      (CircuitBreaker.onFailure cfg b now).state = .closed) ∧
    (∀ b now lf, b.state = .opened → b.last_failure_time = some lf →
      (cfg.recovery_timeout : ℚ) ≤ now - lf →
      CircuitBreaker.callGuard cfg b now =
        (.admitted, CircuitBreaker.transitionTo b .halfOpen)) ∧
    (∀ b now lf, b.state = .opened → b.last_failure_time = some lf →
      now - lf < (cfg.recovery_timeout : ℚ) →
      CircuitBreaker.callGuard cfg b now =
        (.rejected (max 0 (cfg.recovery_timeout - truncRat (now - lf))), b) ∧
      b.state = .opened) ∧
    (∀ b now, b.state = .halfOpen →
      cfg.success_threshold ≤ b.success_count + 1 →
      (CircuitBreaker.onSuccess cfg b now).state = .closed) ∧
    (∀ b now, b.state = .halfOpen →
      (CircuitBreaker.onFailure cfg b now).state = .opened) ∧
    (∀ b now, b.state = .closed →
      (CircuitBreaker.onSuccess cfg b now).failure_count = 0) := by
  refine ⟨?_, ?_, ?_, ?_, ?_, ?_, ?_⟩
  · intro b now hs hth
    simp only [CircuitBreaker.onFailure, hs]
    rw [if_pos hth]
    exact CircuitBreaker.transitionTo_state _ _
  · intro b now hs hth
    simp only [CircuitBreaker.onFailure, hs]
    rw [if_neg (by omega)]
  · intro b now lf hs hlf ht
    unfold CircuitBreaker.callGuard CircuitBreaker.getCurrentState
    simp only [hs, if_pos rfl, hlf, if_pos ht]
    have hhalf : (CircuitBreaker.transitionTo b .halfOpen).state = .halfOpen :=
      CircuitBreaker.transitionTo_state _ _
    simp [hhalf]
  · intro b now lf hs hlf ht
    refine ⟨?_, hs⟩
    unfold CircuitBreaker.callGuard CircuitBreaker.getCurrentState
    simp only [hs, if_pos rfl, hlf, if_neg (not_le.mpr ht)]
    simp [hs, CircuitBreaker.remainingTimeout, hlf]
  · intro b now hs hth
    simp only [CircuitBreaker.onSuccess, hs]
    rw [if_pos hth]
    exact CircuitBreaker.transitionTo_state _ _
  · intro b now hs
    simp only [CircuitBreaker.onFailure, hs]
    exact CircuitBreaker.transitionTo_state _ _
  · intro b now hs
    simp only [CircuitBreaker.onSuccess, hs]

/-- Witness for C3: the step behaviour evaluated on a concrete breaker with
`failure_threshold = 2`, `recovery_timeout = 60`, `success_threshold = 2`. -/
theorem circuit_breaker_step_behaviour_witness :
    (CircuitBreaker.onFailure ⟨2, 60, 2⟩ ⟨.closed, 1, 0, none, none⟩ 10).state = .opened ∧
    (CircuitBreaker.onFailure ⟨2, 60, 2⟩ ⟨.closed, 0, 0, none, none⟩ 10).state = .closed ∧
    CircuitBreaker.callGuard ⟨2, 60, 2⟩ ⟨.opened, 2, 0, some 10, none⟩ 75 =
      (.admitted, CircuitBreaker.transitionTo ⟨.opened, 2, 0, some 10, none⟩ .halfOpen) ∧
    CircuitBreaker.callGuard ⟨2, 60, 2⟩ ⟨.opened, 2, 0, some 10, none⟩ 30 =
      (.rejected 40, ⟨.opened, 2, 0, some 10, none⟩) ∧
    (CircuitBreaker.onSuccess ⟨2, 60, 2⟩ ⟨.halfOpen, 0, 1, some 10, none⟩ 80).state = .closed ∧
    (CircuitBreaker.onFailure ⟨2, 60, 2⟩ ⟨.halfOpen, 0, 1, some 10, none⟩ 80).state = .opened ∧
    (CircuitBreaker.onSuccess ⟨2, 60, 2⟩ ⟨.closed, 1, 0, none, none⟩ 5).failure_count = 0 := by
  have h := circuit_breaker_step_behaviour ⟨2, 60, 2⟩
  refine ⟨h.1 _ 10 rfl (by decide), h.2.1 _ 10 rfl (by decide),
    h.2.2.1 _ 75 10 rfl rfl (by norm_num), ?_,
    h.2.2.2.2.1 _ 80 rfl (by decide), h.2.2.2.2.2.1 _ 80 rfl, h.2.2.2.2.2.2 _ 5 rfl⟩
  have h4 := h.2.2.2.1 ⟨.opened, 2, 0, some 10, none⟩ 30 10 rfl rfl (by norm_num)
  have : max 0 ((60 : Int) - truncRat ((30 : ℚ) - 10)) = 40 := by
    norm_num [truncRat]
  rw [← this]
  exact h4.1

namespace Pool

/-! ## Connection pool (`src/core/claude_handler.py`, class `ClaudeHandler`)

The pool is the list `self.connection_pool` of `PooledConnection` records;
the underlying `ClaudeSDKClient` is opaque and modelled by a numeric handle.
All pool mutations happen under `self.pool_lock`, so the pool evolves by a
sequence of atomic operations. -/

/-- `ClaudeHandler.POOL_MAX_SIZE`. -/
def POOL_MAX_SIZE : Nat := 10

/-- `ClaudeHandler.CONNECTION_MAX_AGE_MINUTES`. -/
def CONNECTION_MAX_AGE_MINUTES : ℚ := 60

/-- `ClaudeHandler.CONNECTION_MAX_USES`. -/
def CONNECTION_MAX_USES : Nat := 100

/-- Dataclass `PooledConnection`. -/
structure PooledConnection where
  client : Nat
  created_at : ℚ
  last_used : ℚ
  use_count : Nat
  is_healthy : Bool
deriving DecidableEq, Repr

/-- `ClaudeHandler._get_from_pool`: pop the first healthy connection, bump
`last_used` and `use_count`, and return it; `None` when no healthy
connection exists. -/
def getFromPool : List PooledConnection → ℚ → Option PooledConnection × List PooledConnection
  | [], _ => (none, [])
  | c :: rest, now =>
      if c.is_healthy then
        (some { c with last_used := now, use_count := c.use_count + 1 }, rest)
      else
        let r := getFromPool rest now
        (r.1, c :: r.2)

/-- `ClaudeHandler._return_client_to_pool`: when the pool is full the client
is disconnected and discarded; otherwise a fresh `PooledConnection`
(`created_at = now`, `use_count = 0`, `is_healthy = True`) is appended. -/
def returnClientToPool (pool : List PooledConnection) (client : Nat) (now : ℚ) :
    List PooledConnection :=
  if POOL_MAX_SIZE ≤ pool.length then pool
  else pool ++ [{ client := client, created_at := now, last_used := now,
                  use_count := 0, is_healthy := true }]

/-- `ClaudeHandler._maintain_pool`: the background maintenance pass removes
connections that are over-age, over-used, or unhealthy. -/
def maintainPool (pool : List PooledConnection) (now : ℚ) : List PooledConnection :=
  pool.filter (fun c =>
    decide ((now - c.created_at) / 60 ≤ CONNECTION_MAX_AGE_MINUTES) &&
    decide (c.use_count ≤ CONNECTION_MAX_USES) && c.is_healthy)

/-- `ClaudeHandler._health_check_pool`: re-probe every pooled connection and
update its healthy flag (`probe` models `_is_client_healthy`). -/
def healthCheckPool (pool : List PooledConnection) (probe : Nat → Bool) :
    List PooledConnection :=
  pool.map (fun c => { c with is_healthy := probe c.client })

/-- One atomic pool operation. -/
inductive PoolOp
  | acquire (now : ℚ)
  | release (client : Nat) (now : ℚ)
  | maintain (now : ℚ)
  | healthCheck (probe : Nat → Bool)
  | shutdown

/-- Effect of one operation on the idle pool. -/
def poolStep (pool : List PooledConnection) : PoolOp → List PooledConnection
  | .acquire now => (getFromPool pool now).2
  | .release client now => returnClientToPool pool client now
  | .maintain now => maintainPool pool now
  | .healthCheck probe => healthCheckPool pool probe
  | .shutdown => []

/-- The pool state after a sequence of operations, starting from the empty
pool created by `ClaudeHandler.__init__`. -/
def runPool (ops : List PoolOp) : List PooledConnection :=
  ops.foldl poolStep []

/-- Reachable pool states. -/
def poolReachable (s : List PooledConnection) : Prop :=
  ∃ ops, runPool ops = s

theorem getFromPool_length_le (pool : List PooledConnection) (now : ℚ) :
    (getFromPool pool now).2.length ≤ pool.length := by
  induction pool with
  | nil => simp [getFromPool]
  | cons c rest ih =>
      unfold getFromPool
      by_cases h : c.is_healthy
      · simp [h]
      · simp only [h, Bool.false_eq_true, if_false, List.length_cons]
        omega

theorem poolStep_length_le (pool : List PooledConnection) (op : PoolOp)
    (h : pool.length ≤ POOL_MAX_SIZE) : (poolStep pool op).length ≤ POOL_MAX_SIZE := by
  cases op with
  | acquire now =>
      exact le_trans (getFromPool_length_le pool now) h
  | release client now =>
      unfold poolStep returnClientToPool
      by_cases hfull : POOL_MAX_SIZE ≤ pool.length
      · simpa [hfull]
      · simp only [hfull, if_false, List.length_append, List.length_singleton]
        omega
  | maintain now =>
      exact le_trans (List.length_filter_le _ _) h
  | healthCheck probe =>
      simpa [poolStep, healthCheckPool] using h
  | shutdown => simp [poolStep]

theorem runPool_length_le (ops : List PoolOp) :
    (runPool ops).length ≤ POOL_MAX_SIZE := by
  suffices h : ∀ start : List PooledConnection, start.length ≤ POOL_MAX_SIZE →
      (ops.foldl poolStep start).length ≤ POOL_MAX_SIZE by
    exact h [] (by simp [POOL_MAX_SIZE])
  induction ops with
  | nil => intro start hs; simpa
  | cons op rest ih =>
      intro start hs
      exact ih _ (poolStep_length_le start op hs)

theorem getFromPool_healthy (pool : List PooledConnection) (now : ℚ)
    (c : PooledConnection) (rest : List PooledConnection)
    (h : getFromPool pool now = (some c, rest)) : c.is_healthy = true := by
  induction pool generalizing rest with
  | nil => simp [getFromPool] at h
  | cons d tail ih =>
      unfold getFromPool at h
      by_cases hd : d.is_healthy
      · rw [if_pos hd] at h
        have h1 : some ({ d with last_used := now, use_count := d.use_count + 1 }) = some c :=
          congrArg Prod.fst h
        have h2 := Option.some.inj h1
        rw [← h2]
        exact hd
      · simp only [hd, Bool.false_eq_true, if_false, Prod.mk.injEq] at h
        obtain ⟨h1, _⟩ := h
        cases hg : (getFromPool tail now) with
        | mk o r =>
            rw [hg] at h1
            cases o with
            | none => simp at h1
            | some c' =>
                simp only [Option.some.injEq] at h1
                subst h1
                exact ih r (by rw [hg])

end Pool

/-- C2 counterexample: the claim "for every reachable pool state, a pooled
connection whose age exceeds `CONNECTION_MAX_AGE_MINUTES`, or whose
`use_count` exceeds `CONNECTION_MAX_USES`, or whose healthy flag is false,
is never returned by an acquire" is false: releasing a client at time 0 and
acquiring at time 3660 s (61 minutes later, before any maintenance pass
runs) hands out a connection aged over 60 minutes, because
`_get_from_pool` only checks `is_healthy`. -/
theorem pool_eviction_claim_false :
    ¬ (∀ s, Pool.poolReachable s → ∀ (now : ℚ) c rest,
        Pool.getFromPool s now = (some c, rest) →
        ¬ (Pool.CONNECTION_MAX_AGE_MINUTES < (now - c.created_at) / 60 ∨
           Pool.CONNECTION_MAX_USES < c.use_count ∨ c.is_healthy = false)) := by
  intro h
  have hreach : Pool.poolReachable [⟨0, 0, 0, 0, true⟩] :=
    ⟨[.release 0 0], by decide⟩
  have hget : Pool.getFromPool [⟨0, 0, 0, 0, true⟩] 3660 =
      (some ⟨0, 0, 3660, 1, true⟩, []) := by decide
  exact h _ hreach 3660 _ _ hget (Or.inl (by norm_num [Pool.CONNECTION_MAX_AGE_MINUTES]))

/-- C2 (amended): an acquire (`_get_from_pool`) never returns a connection
whose healthy flag is false; the age and use-count limits are enforced only
by the background maintenance pass (`_maintain_pool`), which removes every
over-age, over-used or unhealthy connection. -/
theorem pool_eviction_amended :
    (∀ pool (now : ℚ) c rest, Pool.getFromPool pool now = (some c, rest) →
      c.is_healthy = true) ∧
    (∀ pool (now : ℚ), ∀ c ∈ Pool.maintainPool pool now,
      (now - c.created_at) / 60 ≤ Pool.CONNECTION_MAX_AGE_MINUTES ∧
      c.use_count ≤ Pool.CONNECTION_MAX_USES ∧ c.is_healthy = true) := by
  constructor
  · exact fun pool now c rest h => Pool.getFromPool_healthy pool now c rest h
  · intro pool now c hc
    unfold Pool.maintainPool at hc
    have := List.of_mem_filter hc
    simp only [Bool.and_eq_true, decide_eq_true_eq] at this
    exact ⟨this.1.1, this.1.2, this.2⟩

/-- Witness for the amended C2: a healthy connection acquired from a
concrete pool, and a concrete maintenance pass. -/
theorem pool_eviction_amended_witness :
    (⟨1, 0, 50, 4, true⟩ : Pool.PooledConnection).is_healthy = true ∧
    ((0 : ℚ) - (0 : ℚ)) / 60 ≤ Pool.CONNECTION_MAX_AGE_MINUTES ∧
    (0 : Nat) ≤ Pool.CONNECTION_MAX_USES ∧ true = true := by
  refine ⟨?_, ?_⟩
  · have hget : Pool.getFromPool [⟨0, 0, 0, 2, false⟩, ⟨1, 0, 10, 3, true⟩] 50 =
        (some ⟨1, 0, 50, 4, true⟩, [⟨0, 0, 0, 2, false⟩]) := by decide
    exact pool_eviction_amended.1 _ 50 _ _ hget
  · have hm : Pool.maintainPool [⟨0, 0, 0, 0, true⟩] 0 = [⟨0, 0, 0, 0, true⟩] := by
      norm_num [Pool.maintainPool, List.filter, Pool.CONNECTION_MAX_AGE_MINUTES,
        Pool.CONNECTION_MAX_USES]
    have h := pool_eviction_amended.2 [⟨0, 0, 0, 0, true⟩] 0 ⟨0, 0, 0, 0, true⟩
      (by rw [hm]; exact List.mem_singleton_self _)
    exact h

/-- C9: (a) starting from the empty pool, no sequence of acquire / release /
maintenance / health-check / shutdown operations ever makes the idle pool
exceed `POOL_MAX_SIZE`; (b) a release appends the connection to the idle set
exactly when the pool is below the cap; (c) when the pool is at (or above)
the cap the released client is discarded and the pool is unchanged. -/
theorem pool_cap_invariant :
    (∀ ops, (Pool.runPool ops).length ≤ Pool.POOL_MAX_SIZE) ∧
    (∀ pool client (now : ℚ), pool.length < Pool.POOL_MAX_SIZE →
      Pool.returnClientToPool pool client now =
        pool ++ [{ client := client, created_at := now, last_used := now,
                   use_count := 0, is_healthy := true }]) ∧
    (∀ pool client (now : ℚ), Pool.POOL_MAX_SIZE ≤ pool.length →
      Pool.returnClientToPool pool client now = pool) := by
  refine ⟨Pool.runPool_length_le, ?_, ?_⟩
  · intro pool client now hlt
    unfold Pool.returnClientToPool
    rw [if_neg (by omega)]
  · intro pool client now hge
    unfold Pool.returnClientToPool
    rw [if_pos hge]

/-- Witness for C9: the cap holds on a concrete operation sequence, and the
two release behaviours evaluated on concrete pools. -/
theorem pool_cap_invariant_witness :
    (Pool.runPool [.release 0 0, .release 1 1, .acquire 2]).length ≤ Pool.POOL_MAX_SIZE ∧
    Pool.returnClientToPool [] 7 (5 : ℚ) =
      [{ client := 7, created_at := 5, last_used := 5, use_count := 0, is_healthy := true }] ∧
    Pool.returnClientToPool
      [⟨0,0,0,0,true⟩, ⟨1,0,0,0,true⟩, ⟨2,0,0,0,true⟩, ⟨3,0,0,0,true⟩, ⟨4,0,0,0,true⟩,
       ⟨5,0,0,0,true⟩, ⟨6,0,0,0,true⟩, ⟨7,0,0,0,true⟩, ⟨8,0,0,0,true⟩, ⟨9,0,0,0,true⟩]
      10 (5 : ℚ) =
      [⟨0,0,0,0,true⟩, ⟨1,0,0,0,true⟩, ⟨2,0,0,0,true⟩, ⟨3,0,0,0,true⟩, ⟨4,0,0,0,true⟩,
       ⟨5,0,0,0,true⟩, ⟨6,0,0,0,true⟩, ⟨7,0,0,0,true⟩, ⟨8,0,0,0,true⟩, ⟨9,0,0,0,true⟩] := by
  refine ⟨pool_cap_invariant.1 _, ?_, ?_⟩
  · have h := pool_cap_invariant.2.1 [] 7 (5 : ℚ) (by simp [Pool.POOL_MAX_SIZE])
    simpa using h
  · exact pool_cap_invariant.2.2 _ 10 (5 : ℚ) (by simp [Pool.POOL_MAX_SIZE])

namespace Turn

/-! ## Streaming turn pipeline (`src/core/claude_handler.py`,
`ClaudeHandler.send_message`)

The upstream SDK stream is modelled per content block, already coerced to
strings (the list-shaped payload coercions of the source are identities on
canonical string payloads).  The dispatch (`client.query` under
`asyncio.wait_for`) either succeeds or raises; an exception may also be
raised by the stream iteration after some prefix of events.  The critical
control-flow detail kept by the embedding: the local variable
`real_session_id` is assigned only *after* the dispatch await returns, so
the `except` branch reads an unbound local when the dispatch itself
raised. -/

/-- Token usage carried by the upstream `ResultMessage`. -/
structure Usage where
  input_tokens : Nat
  output_tokens : Nat
deriving DecidableEq, Repr

/-- One upstream message block, as consumed by the `async for` loop. -/
inductive Upstream
  | assistantText (text : String)
  | toolUse (name id : String)
  | toolResult (tool_use_id content : String)
  | resultMsg (usage : Option Usage) (total_cost_usd : Option ℚ)
deriving DecidableEq, Repr

/-- One event yielded to the client. -/
inductive Event
  | processing (session_id : String)
  | content (chunk session_id : String)
  | toolUse (name id session_id : String)
  | toolResult (tool_id content session_id : String)
  | result (session_id : String) (input_tokens output_tokens : Option Nat)
      (cost_usd : Option ℚ)
  | error (emsg session_id : String)
deriving DecidableEq, Repr

/-- Dataclass `SessionHistory`: the per-session message list, cumulative
token total and cumulative cost. -/
structure SessionHistory where
  messages : List String
  total_tokens : Nat
  total_cost : ℚ
deriving DecidableEq, Repr

/-- Python `str.split()` with no argument: split on whitespace runs,
discarding empty pieces. -/
def pySplit (s : String) : List String :=
  (s.split Char.isWhitespace).filter (fun w => w ≠ "")

/-- The two-words-per-chunk loop of the `TextBlock` branch:
`' '.join(words[i:i+2]) + " "` for `i = 0, 2, 4, …`. -/
def chunk2 : List String → List String
  | [] => []
  | [w] => [w ++ " "]
  | w1 :: w2 :: rest => (w1 ++ " " ++ w2 ++ " ") :: chunk2 rest

/-- The `result` event payload built in the `ResultMessage` branch: token
fields are present iff usage is, and `cost_usd` iff `total_cost_usd` is
present and truthy (non-zero). -/
def resultEvent (sid : String) (usage : Option Usage) (cost : Option ℚ) : Event :=
  .result sid (usage.map Usage.input_tokens) (usage.map Usage.output_tokens)
    (match cost with
     | some c => if c ≠ 0 then some c else none
     | none => none)

/-- The session-history update of the `ResultMessage` branch
(`claude_handler.py:422-454`): tokens are added when usage is present, cost
when `total_cost_usd` is present and truthy; `history.messages` is not
touched. -/
def applyResult (hist : SessionHistory) (usage : Option Usage) (cost : Option ℚ) :
    SessionHistory :=
  let hist := match usage with
    | some u =>
        { hist with total_tokens := hist.total_tokens + (u.input_tokens + u.output_tokens) }
    | none => hist
  match cost with
  | some c => if c ≠ 0 then { hist with total_cost := hist.total_cost + c } else hist
  | none => hist

/-- The `message_count` value passed to
`session_manager.update_session_metrics` in the `ResultMessage` branch:
`len(history.messages) + 1`. -/
def metricsMessageCount (hist : SessionHistory) : Nat :=
  hist.messages.length + 1

/-- The `async for msg in client.receive_response()` loop body: emitted
events, updated history, and whether a `ResultMessage` terminated the
loop (`break`). -/
def processStream (sid : String) (hist : SessionHistory) :
    List Upstream → SessionHistory × List Event × Bool
  | [] => (hist, [], false)
  | u :: rest =>
      match u with
      | .assistantText text =>
          let r := processStream sid hist rest
          (r.1, (chunk2 (pySplit text)).map (fun c => Event.content c sid) ++ r.2.1, r.2.2)
      | .toolUse name id =>
          let r := processStream sid hist rest
          (r.1, Event.toolUse name id sid :: r.2.1, r.2.2)
      | .toolResult tid content =>
          let r := processStream sid hist rest
          (r.1, Event.toolResult tid content sid :: r.2.1, r.2.2)
      | .resultMsg usage cost =>
          (applyResult hist usage cost, [resultEvent sid usage cost], true)

/-- Exceptions escaping the generator. -/
inductive PyExn
  | unboundLocalError
deriving DecidableEq, Repr

/-- Input of one turn: whether the dispatch
(`await asyncio.wait_for(client.query(...))`) succeeded, the upstream
blocks received, and an exception raised by the iteration after them
(if any). -/
structure TurnInput where
  dispatch_ok : Bool
  stream : List Upstream
  stream_error : Option String
deriving DecidableEq, Repr

/-- `ClaudeHandler.send_message`, from the `try` at line 308: yield
`processing`; dispatch; on success bind `real_session_id` and stream; a
`ResultMessage` breaks the loop after the `result` event; an exception
raised after dispatch reaches the `except` branch which yields a single
`error` event; an exception raised *by the dispatch itself* reaches the
`except` branch with `real_session_id` still unbound, so building the error
payload raises `UnboundLocalError` and no `error` event is yielded. -/
def send_message (sid : String) (hist : SessionHistory) (inp : TurnInput) :
    List Event × SessionHistory × Option PyExn :=
  if inp.dispatch_ok then
    let r := processStream sid hist inp.stream
    if r.2.2 then
      (Event.processing sid :: r.2.1, r.1, none)
    else
      match inp.stream_error with
      | some e => (Event.processing sid :: r.2.1 ++ [Event.error e sid], r.1, none)
      | none => (Event.processing sid :: r.2.1, r.1, none)
  else
    ([Event.processing sid], hist, some .unboundLocalError)

/-- Event classifiers for counting. -/
def isProcessing : Event → Bool
  | .processing _ => true
  | _ => false

def isResult : Event → Bool
  | .result _ _ _ _ => true
  | _ => false

def isError : Event → Bool
  | .error _ _ => true
  | _ => false

/-- Number of events of a given kind in a turn's output. -/
def countEvents (p : Event → Bool) (evs : List Event) : Nat :=
  (evs.filter p).length

end Turn

/-- C1 (code defect): when the dispatch (`client.query` under
`asyncio.wait_for`) raises before any upstream event — e.g. a deadline
expiry — the `except` branch of `send_message` references the local
`real_session_id`, which is assigned only after the dispatch await returns;
building the error payload therefore raises `UnboundLocalError` and the
client observes the `processing` event but *zero* terminal events, where the
claim requires exactly one `error` event. -/
theorem send_message_dispatch_failure_drops_error_event :
    Turn.send_message "s1" ⟨[], 0, 0⟩ ⟨false, [], none⟩ =
      ([Turn.Event.processing "s1"], ⟨[], 0, 0⟩, some .unboundLocalError) ∧
    Turn.countEvents Turn.isError
      (Turn.send_message "s1" ⟨[], 0, 0⟩ ⟨false, [], none⟩).1 = 0 ∧
    Turn.countEvents Turn.isResult
      (Turn.send_message "s1" ⟨[], 0, 0⟩ ⟨false, [], none⟩).1 = 0 ∧
    Turn.countEvents Turn.isProcessing
      (Turn.send_message "s1" ⟨[], 0, 0⟩ ⟨false, [], none⟩).1 = 1 :=
  ⟨rfl, rfl, rfl, rfl⟩

/-- C8 counterexample: a successful turn that reaches the upstream Result
(usage `{input: 5, output: 7}`, cost 1) leaves `history.messages` untouched
— the message count does **not** increase by 1, contradicting the claim. -/
theorem session_history_message_count_counterexample :
    ¬ ((Turn.send_message "s1" ⟨[], 0, 0⟩
          ⟨true, [Turn.Upstream.resultMsg (some ⟨5, 7⟩) (some 1)], none⟩).2.1.messages.length =
        (⟨[], 0, 0⟩ : Turn.SessionHistory).messages.length + 1) := by
  intro h
  simp only [Turn.send_message, Turn.processStream, Turn.applyResult] at h
  norm_num at h

/-- C8 (amended): at the end of a successful turn whose Result carries usage
data and a cost, the history's cumulative token total increases by exactly
`input_tokens + output_tokens` and the cumulative cost by the reported cost
(when non-zero; a zero/absent cost leaves it unchanged); both counters are
non-decreasing (cost under non-negative reported costs).  The `messages`
list however is never appended to, so the message count does not increase,
and the `message_count` metric reported to the session manager is the
constant `len(messages) + 1`. -/
theorem session_history_amended :
    ∀ (sid : String) (hist : Turn.SessionHistory) (u : Turn.Usage) (c : ℚ)
      (rest : List Turn.Upstream),
      (Turn.send_message sid hist
          ⟨true, .resultMsg (some u) (some c) :: rest, none⟩).2.1 =
        Turn.applyResult hist (some u) (some c) ∧
      (Turn.applyResult hist (some u) (some c)).messages = hist.messages ∧
      Turn.metricsMessageCount (Turn.applyResult hist (some u) (some c)) =
        hist.messages.length + 1 ∧
      (Turn.applyResult hist (some u) (some c)).total_tokens =
        hist.total_tokens + (u.input_tokens + u.output_tokens) ∧
      (c ≠ 0 → (Turn.applyResult hist (some u) (some c)).total_cost =
        hist.total_cost + c) ∧
      (c = 0 → (Turn.applyResult hist (some u) (some c)).total_cost =
        hist.total_cost) ∧
      hist.total_tokens ≤ (Turn.applyResult hist (some u) (some c)).total_tokens ∧
      (0 ≤ c → hist.total_cost ≤ (Turn.applyResult hist (some u) (some c)).total_cost) := by
  intro sid hist u c rest
  refine ⟨rfl, ?_, ?_, ?_, ?_, ?_, ?_, ?_⟩ <;>
    simp only [Turn.applyResult, Turn.metricsMessageCount]
  · by_cases hc : c = 0 <;> simp [hc]
  · by_cases hc : c = 0 <;> simp [hc]
  · by_cases hc : c = 0 <;> simp [hc]
  · intro hne; simp [hne]
  · intro heq; simp [heq]
  · by_cases hc : c = 0 <;> simp [hc]
  · intro hnn
    by_cases hc : c = 0
    · simp [hc]
    · simp only [hc, if_true, ne_eq, not_false_eq_true, if_pos]
      linarith

/-- Witness for the amended C8: the history update evaluated at usage
`{5, 7}` and cost 1 on an empty history. -/
theorem session_history_amended_witness :
    (Turn.applyResult ⟨[], 0, 0⟩ (some ⟨5, 7⟩) (some 1)).messages = [] ∧
    (Turn.applyResult ⟨[], 0, 0⟩ (some ⟨5, 7⟩) (some 1)).total_tokens = 0 + (5 + 7) ∧
    ((1 : ℚ) ≠ 0 → (Turn.applyResult ⟨[], 0, 0⟩ (some ⟨5, 7⟩) (some 1)).total_cost = 0 + 1) ∧
    (0 : ℚ) ≤ (Turn.applyResult ⟨[], 0, 0⟩ (some ⟨5, 7⟩) (some 1)).total_cost := by
  have h := session_history_amended "s1" ⟨[], 0, 0⟩ ⟨5, 7⟩ 1 []
  exact ⟨h.2.1, h.2.2.2.1, fun _ => h.2.2.2.2.1 (by norm_num),
    h.2.2.2.2.2.2.2 (by norm_num)⟩

namespace RateLimiter

/-! ## Rate limiter (`src/core/rate_limiter.py`)

`self.requests`, `self.blacklist` and `self.fingerprints` are `OrderedDict`s
modelled as insertion-ordered association lists; Python dict semantics keep
keys unique, assignment updates in place, and insertion of a new key appends
at the end.  Per-client deques of timestamps are oldest-first lists.  The
`self.stats` bookkeeping has no effect on decisions and is omitted. -/

/-- `dict[key]` read access. -/
def lookupKey {α : Type} (l : List (String × α)) (k : String) : Option α :=
  (l.find? (fun p => decide (p.1 = k))).map Prod.snd

/-- `dict[key] = value`: update in place, else append. -/
def setKey {α : Type} (l : List (String × α)) (k : String) (v : α) : List (String × α) :=
  if (lookupKey l k).isSome then
    l.map (fun p => if p.1 = k then (k, v) else p)
  else l ++ [(k, v)]

/-- `del dict[key]`. -/
def delKey {α : Type} (l : List (String × α)) (k : String) : List (String × α) :=
  l.filter (fun p => decide (¬ p.1 = k))

/-- `RateLimiter.__init__` parameters. -/
structure Config where
  requests_per_minute : Nat
  burst_size : Nat
  cleanup_interval : ℚ
deriving DecidableEq, Repr

/-- `RateLimiter.MAX_TRACKED_IPS`. -/
def MAX_TRACKED_IPS : Nat := 10000

/-- Rejection reasons; the source formats them as f-strings, the tags keep
their data. -/
inductive Reason
  | blacklisted (remaining : Int)
  | rateLimitExceeded (limit : Nat)
  | burstLimitExceeded (burst : Nat)
  | suspiciousBehavior
deriving DecidableEq, Repr

/-- Mutable state of a `RateLimiter` instance. -/
structure State where
  requests : List (String × List ℚ)
  blacklist : List (String × ℚ)
  last_cleanup : ℚ
deriving DecidableEq, Repr

/-- `RateLimiter._add_to_blacklist`. -/
def addToBlacklist (st : State) (ip : String) (duration : ℚ) (now : ℚ) : State :=
  { st with blacklist := setKey st.blacklist ip (now + duration) }

/-- `RateLimiter._cleanup_old_data`: drop clients whose deque is empty or
whose newest timestamp is older than one hour, and expired blacklist
entries. -/
def cleanupOldData (st : State) (now : ℚ) : State :=
  { requests := st.requests.filter (fun p =>
      match p.2.getLast? with
      | some t => decide (now - 3600 ≤ t)
      | none => false),
    blacklist := st.blacklist.filter (fun p => decide (¬ p.2 < now)),
    last_cleanup := now }

/-- Result of `RateLimiter.is_allowed`. -/
structure IsAllowedResult where
  allowed : Bool
  reason : Option Reason
  state : State
deriving DecidableEq, Repr

/-- The sliding-window / burst part of `RateLimiter.is_allowed` (after the
blacklist gate): get-or-create the client's deque, prune entries older than
60 s in place, reject (and blacklist 60 s) at the per-minute cap, reject
(and blacklist 30 s) at the burst cap, otherwise record `now`. -/
def isAllowedBody (cfg : Config) (st : State) (ip : String) (now : ℚ) : IsAllowedResult :=
  let st := if (lookupKey st.requests ip).isSome then st
            else { st with requests := st.requests ++ [(ip, [])] }
  let reqs := (lookupKey st.requests ip).getD []
  let pruned := reqs.dropWhile (fun t => decide (t < now - 60))
  let st := { st with requests := setKey st.requests ip pruned }
  if cfg.requests_per_minute ≤ pruned.length then
    { allowed := false, reason := some (.rateLimitExceeded cfg.requests_per_minute),
      state := addToBlacklist st ip 60 now }
  else
    let recent := pruned.filter (fun t => decide (now - 5 < t))
    if cfg.burst_size ≤ recent.length then
      { allowed := false, reason := some (.burstLimitExceeded cfg.burst_size),
        state := addToBlacklist st ip 30 now }
    else
      { allowed := true, reason := none,
        state := { st with requests := setKey st.requests ip (pruned ++ [now]) } }

/-- The periodic-cleanup step at the top of `RateLimiter.is_allowed`. -/
def maybeCleanup (cfg : Config) (st : State) (now : ℚ) : State :=
  if cfg.cleanup_interval < now - st.last_cleanup then cleanupOldData st now else st

/-- The tracked-client bound of `RateLimiter.is_allowed`: when more than
`MAX_TRACKED_IPS` clients are tracked, pop the 100 oldest (FIFO). -/
def boundTracked (st : State) : State :=
  if MAX_TRACKED_IPS < st.requests.length
  then { st with requests := st.requests.drop 100 } else st

/-- The blacklist gate of `RateLimiter.is_allowed`: reject while the entry
is unexpired (with the remaining seconds), else drop the entry and fall
through to the sliding-window body. -/
def blacklistGate (cfg : Config) (st : State) (ip : String) (now : ℚ) : IsAllowedResult :=
  match lookupKey st.blacklist ip with
  | some expiry =>
      if now < expiry then
        { allowed := false, reason := some (.blacklisted (truncRat (expiry - now))),
          state := st }
      else
        isAllowedBody cfg { st with blacklist := delKey st.blacklist ip } ip now
  | none => isAllowedBody cfg st ip now

/-- `RateLimiter.is_allowed`: periodic cleanup, bound on tracked clients,
blacklist gate, then the sliding-window body. -/
def is_allowed (cfg : Config) (st : State) (ip : String) (now : ℚ) : IsAllowedResult :=
  blacklistGate cfg (boundTracked (maybeCleanup cfg st now)) ip now

/-- The sliding-window record the limiter holds for a client. -/
def recordOf (st : State) (ip : String) : List ℚ :=
  (lookupKey st.requests ip).getD []

end RateLimiter

namespace RateLimiter

theorem mem_of_lookupKey {α : Type} {l : List (String × α)} {k : String} {v : α}
    (h : lookupKey l k = some v) : (k, v) ∈ l := by
  unfold lookupKey at h
  cases hf : l.find? (fun p => decide (p.1 = k)) with
  | none => rw [hf] at h; exact Option.noConfusion h
  | some pr =>
      rw [hf] at h
      have hv : pr.2 = v := by simpa using h
      have hpr : pr.1 = k := by
        have := List.find?_some hf
        simpa using this
      have hmem := List.mem_of_find?_eq_some hf
      have : (k, v) = pr := by
        cases pr
        simp only at hpr hv
        simp [hpr, hv]
      rw [this]
      exact hmem

theorem lookupKey_eq_some_of_mem {α : Type} {l : List (String × α)} {k : String} {v : α}
    (hnd : (l.map Prod.fst).Nodup) (hmem : (k, v) ∈ l) : lookupKey l k = some v := by
  induction l with
  | nil => simp at hmem
  | cons p rest ih =>
      simp only [List.map_cons, List.nodup_cons] at hnd
      rcases List.mem_cons.mp hmem with heq | htail
      · unfold lookupKey
        rw [List.find?]
        have hpk : (fun q : String × α => decide (q.1 = k)) p = true := by
          rw [← heq]; simp
        simp only [hpk]
        rw [← heq]
        rfl
      · have hk : k ∈ rest.map Prod.fst := List.mem_map.mpr ⟨(k, v), htail, rfl⟩
        have hne : ¬ p.1 = k := fun hpk => hnd.1 (hpk ▸ hk)
        unfold lookupKey
        rw [List.find?]
        simp only [decide_eq_false hne]
        exact ih hnd.2 htail

theorem lookupKey_none_iff {α : Type} {l : List (String × α)} {k : String} :
    lookupKey l k = none ↔ ∀ x ∈ l, ¬ x.1 = k := by
  unfold lookupKey
  rw [Option.map_eq_none']
  rw [List.find?_eq_none]
  simp

theorem lookupKey_filter_none {α : Type} {l : List (String × α)} {k : String}
    (p : String × α → Bool) (h : lookupKey l k = none) :
    lookupKey (l.filter p) k = none := by
  rw [lookupKey_none_iff] at h ⊢
  intro x hx
  exact h x (List.mem_of_mem_filter hx)

theorem lookupKey_filter_of {α : Type} {l : List (String × α)} {k : String} {v : α}
    (p : String × α → Bool) (hnd : (l.map Prod.fst).Nodup)
    (h : lookupKey l k = some v) (hp : p (k, v) = true) :
    lookupKey (l.filter p) k = some v := by
  have hnd' : ((l.filter p).map Prod.fst).Nodup :=
    List.Nodup.sublist (List.Sublist.map Prod.fst (List.filter_sublist l)) hnd
  exact lookupKey_eq_some_of_mem hnd'
    (List.mem_filter.mpr ⟨mem_of_lookupKey h, hp⟩)

theorem lookupKey_append_of_none {α : Type} {l : List (String × α)} {k : String}
    (v : α) (h : lookupKey l k = none) :
    lookupKey (l ++ [(k, v)]) k = some v := by
  induction l with
  | nil => unfold lookupKey; simp
  | cons p rest ih =>
      rw [lookupKey_none_iff] at h
      have hp : ¬ p.1 = k := h p (List.mem_cons_self p rest)
      have hrest : lookupKey rest k = none :=
        lookupKey_none_iff.mpr (fun x hx => h x (List.mem_cons_of_mem p hx))
      unfold lookupKey at ih ⊢
      rw [List.cons_append, List.find?]
      simp only [decide_eq_false hp]
      exact ih hrest

theorem lookupKey_map_update {α : Type} (l : List (String × α)) (k : String) (v : α) :
    lookupKey (l.map (fun p => if p.1 = k then (k, v) else p)) k
      = (lookupKey l k).map (fun _ => v) := by
  induction l with
  | nil => rfl
  | cons p rest ih =>
      by_cases hp : p.1 = k
      · unfold lookupKey
        simp only [List.map_cons, if_pos hp, List.find?]
        simp [hp]
      · unfold lookupKey
        simp only [List.map_cons, if_neg hp, List.find?]
        simp only [decide_eq_false hp]
        exact ih

theorem lookupKey_setKey_self {α : Type} (l : List (String × α)) (k : String) (v : α) :
    lookupKey (setKey l k v) k = some v := by
  unfold setKey
  cases hl : lookupKey l k with
  | none =>
      simp only [hl, Option.isSome_none, Bool.false_eq_true, if_false]
      exact lookupKey_append_of_none v hl
  | some w =>
      simp only [hl, Option.isSome_some, if_true]
      rw [lookupKey_map_update, hl]
      rfl

theorem recordOf_mono_sublist {st' st : State} {ip : String}
    (hsub : List.Sublist st'.requests st.requests)
    (hnd : (st.requests.map Prod.fst).Nodup) :
    ∀ t ∈ recordOf st' ip, t ∈ recordOf st ip := by
  intro t ht
  unfold recordOf at ht ⊢
  cases hl : lookupKey st'.requests ip with
  | none => rw [hl] at ht; simp at ht
  | some l' =>
      rw [hl] at ht
      simp only [Option.getD_some] at ht
      have hmem : (ip, l') ∈ st.requests := hsub.mem (mem_of_lookupKey hl)
      rw [lookupKey_eq_some_of_mem hnd hmem]
      simpa using ht

end RateLimiter

namespace RateLimiter

theorem isAllowedBody_rate_limit (cfg : Config) (st : State) (ip : String) (now : ℚ)
    (reqs : List ℚ)
    (hreq : lookupKey st.requests ip = some reqs)
    (hlen : reqs.length = cfg.requests_per_minute)
    (hwin : ∀ t ∈ reqs, now - 60 ≤ t) :
    (isAllowedBody cfg st ip now).allowed = false ∧
    (isAllowedBody cfg st ip now).reason =
      some (.rateLimitExceeded cfg.requests_per_minute) ∧
    lookupKey (isAllowedBody cfg st ip now).state.blacklist ip = some (now + 60) := by
  have hpruned : reqs.dropWhile (fun t => decide (t < now - 60)) = reqs := by
    cases reqs with
    | nil => rfl
    | cons a tl =>
        have ha : now - 60 ≤ a := hwin a (List.mem_cons_self a tl)
        simp [List.dropWhile, decide_eq_false (not_lt.mpr ha)]
  unfold isAllowedBody
  simp only [hreq, Option.isSome_some, if_true, Option.getD_some, hpruned]
  rw [if_pos (le_of_eq hlen.symm)]
  refine ⟨rfl, rfl, ?_⟩
  simp only [addToBlacklist]
  exact lookupKey_setKey_self _ _ _

end RateLimiter

/-- C4: for a client that is not blacklisted, once `requests_per_minute`
allowed calls are on record within the trailing 60-second window, the next
`is_allowed` call returns disallowed with the rate-limit reason and
blacklists the client with expiry 60 seconds in the future.  (The
association lists model Python dicts, whose keys are unique, hence the
`Nodup` hypothesis; the tracked-client map is within its bound
`MAX_TRACKED_IPS`, as any state produced by the limiter is.) -/
theorem rate_limit_trips_and_blacklists :
    ∀ (cfg : RateLimiter.Config) (st : RateLimiter.State) (ip : String) (now : ℚ)
      (reqs : List ℚ),
      1 ≤ cfg.requests_per_minute →
      (st.requests.map Prod.fst).Nodup →
      RateLimiter.lookupKey st.requests ip = some reqs →
      reqs.length = cfg.requests_per_minute →
      (∀ t ∈ reqs, now - 60 ≤ t) →
      RateLimiter.lookupKey st.blacklist ip = none →
      st.requests.length ≤ RateLimiter.MAX_TRACKED_IPS →
      (RateLimiter.is_allowed cfg st ip now).allowed = false ∧
      (RateLimiter.is_allowed cfg st ip now).reason =
        some (.rateLimitExceeded cfg.requests_per_minute) ∧
      RateLimiter.lookupKey
        (RateLimiter.is_allowed cfg st ip now).state.blacklist ip = some (now + 60) := by
  intro cfg st ip now reqs hrpm hnd hreq hlen hwin hbl htrack
  have hne : reqs ≠ [] := by
    intro hnil
    rw [hnil] at hlen
    simp at hlen
    omega
  have hkeep : (fun p : String × List ℚ =>
      match p.2.getLast? with
      | some t => decide (now - 3600 ≤ t)
      | none => false) (ip, reqs) = true := by
    simp only
    rw [List.getLast?_eq_getLast reqs hne]
    have hmem := List.getLast_mem hne
    have h60 := hwin _ hmem
    have : now - 3600 ≤ reqs.getLast hne := by linarith
    simp [this]
  have h1req : RateLimiter.lookupKey (RateLimiter.maybeCleanup cfg st now).requests ip =
      some reqs := by
    unfold RateLimiter.maybeCleanup
    by_cases hc1 : cfg.cleanup_interval < now - st.last_cleanup
    · rw [if_pos hc1]
      unfold RateLimiter.cleanupOldData
      exact RateLimiter.lookupKey_filter_of _ hnd hreq hkeep
    · rw [if_neg hc1]; exact hreq
  have h1bl : RateLimiter.lookupKey (RateLimiter.maybeCleanup cfg st now).blacklist ip =
      none := by
    unfold RateLimiter.maybeCleanup
    by_cases hc1 : cfg.cleanup_interval < now - st.last_cleanup
    · rw [if_pos hc1]
      unfold RateLimiter.cleanupOldData
      exact RateLimiter.lookupKey_filter_none _ hbl
    · rw [if_neg hc1]; exact hbl
  have h1len : (RateLimiter.maybeCleanup cfg st now).requests.length ≤
      RateLimiter.MAX_TRACKED_IPS := by
    unfold RateLimiter.maybeCleanup
    by_cases hc1 : cfg.cleanup_interval < now - st.last_cleanup
    · rw [if_pos hc1]
      unfold RateLimiter.cleanupOldData
      exact le_trans (List.length_filter_le _ _) htrack
    · rw [if_neg hc1]; exact htrack
  have h2 : RateLimiter.boundTracked (RateLimiter.maybeCleanup cfg st now) =
      RateLimiter.maybeCleanup cfg st now := by
    unfold RateLimiter.boundTracked
    rw [if_neg (by omega)]
  unfold RateLimiter.is_allowed RateLimiter.blacklistGate
  rw [h2]
  simp only [h1bl]
  exact RateLimiter.isAllowedBody_rate_limit cfg _ ip now reqs h1req hlen hwin

/-- Witness for C4: a client with 2 recorded calls inside the window under
`requests_per_minute = 2` is rejected and blacklisted until `now + 60`. -/
theorem rate_limit_trips_and_blacklists_witness :
    (RateLimiter.is_allowed ⟨2, 10, 300⟩ ⟨[("c", [100, 101])], [], 100⟩ "c" 102).allowed
      = false ∧
    (RateLimiter.is_allowed ⟨2, 10, 300⟩ ⟨[("c", [100, 101])], [], 100⟩ "c" 102).reason
      = some (.rateLimitExceeded 2) ∧
    RateLimiter.lookupKey
      (RateLimiter.is_allowed ⟨2, 10, 300⟩
        ⟨[("c", [100, 101])], [], 100⟩ "c" 102).state.blacklist "c" = some (102 + 60) := by
  have h := rate_limit_trips_and_blacklists ⟨2, 10, 300⟩
    ⟨[("c", [100, 101])], [], 100⟩ "c" 102 [100, 101]
    (by norm_num) (by simp) (by rfl) (by rfl)
    (by intro t ht; rcases List.mem_cons.mp ht with h1 | h2
        · rw [h1]; norm_num
        · rcases List.mem_cons.mp h2 with h3 | h4
          · rw [h3]; norm_num
          · simp at h4)
    (by rfl) (by norm_num [RateLimiter.MAX_TRACKED_IPS])
  exact h

namespace RateLimiter

theorem isAllowedBody_record_subset (cfg : Config) (st : State) (ip : String) (now : ℚ)
    (hfail : (isAllowedBody cfg st ip now).allowed = false) :
    ∀ t ∈ recordOf (isAllowedBody cfg st ip now).state ip, t ∈ recordOf st ip := by
  intro t ht
  unfold isAllowedBody at hfail ht
  cases hs : lookupKey st.requests ip with
  | some reqs =>
      simp only [hs, Option.isSome_some, if_true, Option.getD_some] at hfail ht
      by_cases h1 : cfg.requests_per_minute ≤
          (reqs.dropWhile (fun u => decide (u < now - 60))).length
      · rw [if_pos h1] at ht
        unfold recordOf addToBlacklist at ht
        simp only at ht
        rw [lookupKey_setKey_self] at ht
        simp only [Option.getD_some] at ht
        have : t ∈ reqs := (List.dropWhile_sublist _).mem ht
        unfold recordOf
        rw [hs]
        simpa using this
      · rw [if_neg h1] at hfail ht
        by_cases h2 : cfg.burst_size ≤
            ((reqs.dropWhile (fun u => decide (u < now - 60))).filter
              (fun u => decide (now - 5 < u))).length
        · rw [if_pos h2] at ht
          unfold recordOf addToBlacklist at ht
          simp only at ht
          rw [lookupKey_setKey_self] at ht
          simp only [Option.getD_some] at ht
          have : t ∈ reqs := (List.dropWhile_sublist _).mem ht
          unfold recordOf
          rw [hs]
          simpa using this
        · rw [if_neg h2] at hfail
          simp at hfail
  | none =>
      have happ : lookupKey (st.requests ++ [(ip, [])]) ip = some ([] : List ℚ) :=
        lookupKey_append_of_none _ hs
      simp only [hs, Option.isSome_none, Bool.false_eq_true, if_false,
        happ, Option.getD_some, List.dropWhile_nil] at hfail ht
      by_cases h1 : cfg.requests_per_minute ≤ (List.length ([] : List ℚ))
      · rw [if_pos h1] at ht
        unfold recordOf addToBlacklist at ht
        simp only at ht
        rw [lookupKey_setKey_self] at ht
        simp at ht
      · rw [if_neg h1] at hfail ht
        by_cases h2 : cfg.burst_size ≤ (List.filter (fun u => decide (now - 5 < u))
            ([] : List ℚ)).length
        · rw [if_pos h2] at ht
          unfold recordOf addToBlacklist at ht
          simp only at ht
          rw [lookupKey_setKey_self] at ht
          simp at ht
        · rw [if_neg h2] at hfail
          simp at hfail

end RateLimiter

/-- C10: a rejected `is_allowed` call never consumes quota — whenever the
call returns disallowed (blacklisted, over the per-minute limit, or over the
burst limit), every timestamp in the client's stored sliding-window record
afterwards was already in its record before; in particular `now` is recorded
only on allowed calls.  (`Nodup` is the Python-dict key-uniqueness
representation invariant.) -/
theorem rejected_call_consumes_no_quota :
    ∀ (cfg : RateLimiter.Config) (st : RateLimiter.State) (ip : String) (now : ℚ),
      (st.requests.map Prod.fst).Nodup →
      (RateLimiter.is_allowed cfg st ip now).allowed = false →
      ∀ t ∈ RateLimiter.recordOf (RateLimiter.is_allowed cfg st ip now).state ip,
        t ∈ RateLimiter.recordOf st ip := by
  intro cfg st ip now hnd hfail t ht
  have hsub1 : List.Sublist (RateLimiter.maybeCleanup cfg st now).requests st.requests := by
    unfold RateLimiter.maybeCleanup
    by_cases hc : cfg.cleanup_interval < now - st.last_cleanup
    · rw [if_pos hc]
      unfold RateLimiter.cleanupOldData
      exact List.filter_sublist _
    · rw [if_neg hc]
  have hsub : List.Sublist
      (RateLimiter.boundTracked (RateLimiter.maybeCleanup cfg st now)).requests
      st.requests := by
    unfold RateLimiter.boundTracked
    by_cases hb : RateLimiter.MAX_TRACKED_IPS <
        (RateLimiter.maybeCleanup cfg st now).requests.length
    · rw [if_pos hb]
      exact List.Sublist.trans (List.drop_sublist _ _) hsub1
    · rw [if_neg hb]
      exact hsub1
  have hcomp : ∀ u ∈ RateLimiter.recordOf
      (RateLimiter.boundTracked (RateLimiter.maybeCleanup cfg st now)) ip,
      u ∈ RateLimiter.recordOf st ip :=
    RateLimiter.recordOf_mono_sublist hsub hnd
  unfold RateLimiter.is_allowed RateLimiter.blacklistGate at hfail ht
  cases hbl : RateLimiter.lookupKey
      (RateLimiter.boundTracked (RateLimiter.maybeCleanup cfg st now)).blacklist ip with
  | some expiry =>
      simp only [hbl] at hfail ht
      by_cases hexp : now < expiry
      · rw [if_pos hexp] at ht
        exact hcomp t ht
      · rw [if_neg hexp] at hfail ht
        exact hcomp t (RateLimiter.isAllowedBody_record_subset cfg _ ip now hfail t ht)
  | none =>
      simp only [hbl] at hfail ht
      exact hcomp t (RateLimiter.isAllowedBody_record_subset cfg _ ip now hfail t ht)

/-- Witness for C10: the timestamp a blacklisted client had on record
before its rejected call is still (and was already) in its pre-call
record. -/
theorem rejected_call_consumes_no_quota_witness :
    (100 : ℚ) ∈ RateLimiter.recordOf
      (⟨[("c", [100])], [("c", 200)], 100⟩ : RateLimiter.State) "c" :=
  rejected_call_consumes_no_quota ⟨60, 10, 300⟩
    ⟨[("c", [100])], [("c", 200)], 100⟩ "c" 101 (by simp)
    (by norm_num [RateLimiter.is_allowed, RateLimiter.maybeCleanup,
      RateLimiter.boundTracked, RateLimiter.blacklistGate, RateLimiter.lookupKey,
      RateLimiter.MAX_TRACKED_IPS])
    100
    (by norm_num [RateLimiter.is_allowed, RateLimiter.maybeCleanup,
      RateLimiter.boundTracked, RateLimiter.blacklistGate, RateLimiter.lookupKey,
      RateLimiter.recordOf, RateLimiter.MAX_TRACKED_IPS])

namespace RateLimiter

/-! ## `AdvancedRateLimiter` (`src/core/rate_limiter.py:187-272`)

Headers are modelled by the four fields `_generate_fingerprint` reads
(each `headers.get(...)` defaulting to the empty string).  The MD5 digest of
the sorted-key JSON serialization is modelled by that serialization itself:
it induces the same fingerprint-equality relation.  `self.fingerprints` is a
plain `OrderedDict` with **no** default factory; subscripting a missing
client key raises `KeyError`, modelled as `Except.error`. -/

/-- The header fields read by `AdvancedRateLimiter._generate_fingerprint`. -/
structure Headers where
  user_agent : String
  accept : String
  accept_encoding : String
  accept_language : String
deriving DecidableEq, Repr

/-- `AdvancedRateLimiter._generate_fingerprint`: a stable digest of the four
header fields (the MD5 step is modelled by the serialized text itself). -/
def generateFingerprint (h : Headers) : String :=
  "accept=" ++ h.accept ++ "&accept-encoding=" ++ h.accept_encoding ++
    "&accept-language=" ++ h.accept_language ++ "&user-agent=" ++ h.user_agent

/-- `AdvancedRateLimiter.endpoint_limits` lookup with its `"default"`. -/
def endpointLimits (e : String) : Nat :=
  if e = "/api/chat" then 30
  else if e = "/api/health" then 120
  else if e = "/api/sessions" then 60
  else 60

/-- Mutable state of an `AdvancedRateLimiter` instance. -/
structure AdvState where
  base : State
  whitelist : List String
  fingerprints : List (String × List String)
deriving DecidableEq, Repr

/-- The whitelist installed by `AdvancedRateLimiter.__init__`. -/
def initWhitelist : List String := ["127.0.0.1", "localhost", "::1"]

/-- Result of `AdvancedRateLimiter.is_allowed` when it returns. -/
structure AdvResult where
  allowed : Bool
  reason : Option Reason
  state : AdvState
deriving DecidableEq, Repr

/-- The tail of `AdvancedRateLimiter.is_allowed`: endpoint-specific
`requests_per_minute` override, delegate to the base limiter, restore. -/
def advancedBase (cfg : Config) (st : AdvState) (ip : String)
    (endpoint : Option String) (now : ℚ) : Except String AdvResult :=
  let cfg := match endpoint with
    | some e => { cfg with requests_per_minute := endpointLimits e }
    | none => cfg
  let r := is_allowed cfg st.base ip now
  .ok ⟨r.allowed, r.reason, { st with base := r.state }⟩

/-- `AdvancedRateLimiter.is_allowed`: whitelist bypass; then, when headers
are supplied, `self.fingerprints[client_ip].add(fingerprint)` — a plain
`OrderedDict` subscript that raises `KeyError` when the client has no entry
(nothing ever creates one); with more than 10 distinct fingerprints the
client is blacklisted for 300 s; otherwise the base check runs with the
endpoint-specific limit. -/
def advanced_is_allowed (cfg : Config) (st : AdvState) (ip : String)
    (endpoint : Option String) (headers : Option Headers) (now : ℚ) :
    Except String AdvResult :=
  if ip ∈ st.whitelist then .ok ⟨true, none, st⟩
  else
    match headers with
    | some h =>
        match lookupKey st.fingerprints ip with
        | none => .error ip
        | some fps =>
            let fp := generateFingerprint h
            let fps := if fp ∈ fps then fps else fps ++ [fp]
            let st := { st with fingerprints := setKey st.fingerprints ip fps }
            if 10 < fps.length then
              .ok ⟨false, some .suspiciousBehavior,
                { st with base := addToBlacklist st.base ip 300 now }⟩
            else
              advancedBase cfg st ip endpoint now
    | none => advancedBase cfg st ip endpoint now

end RateLimiter

/-- C7 (code defect): on a freshly initialized `AdvancedRateLimiter`, the
very first `is_allowed` call with a headers dict for any non-whitelisted
client raises `KeyError` instead of returning an `(allowed, reason)` pair:
`self.fingerprints` is a plain `OrderedDict` that never receives an entry,
so `self.fingerprints[client_ip].add(...)` fails, and the suspicious-
behaviour blacklisting (> 10 distinct fingerprints) is unreachable. -/
theorem advanced_is_allowed_keyerror :
    RateLimiter.advanced_is_allowed ⟨60, 10, 300⟩
      ⟨⟨[], [], 0⟩, RateLimiter.initWhitelist, []⟩
      "203.0.113.5" none (some ⟨"curl/8.0", "*/*", "gzip", "en"⟩) 100 =
      .error "203.0.113.5" := by
  rfl

namespace CacheManager

/-! ## Cache (`src/core/cache_manager.py`, class `CacheManager`)

The backing `OrderedDict` is an insertion-ordered association list (front =
least recently used); `RateLimiter.lookupKey` / `setKey` / `delKey` are the
same Python-dict primitives.  Values are of an arbitrary type `α`; the
external `pickle` / `gzip` libraries are abstracted as a `SerLib` record,
whose round-trip laws are hypotheses of the theorems and are satisfied by
any concrete instance.  Statistics counters do not affect values and are
omitted.  A raised decompression/unpickling error is modelled as `none`. -/

/-- The external serialization libraries used by the cache:
`pickle.dumps` / `pickle.loads` and `gzip.compress` / `gzip.decompress`
(bytes are lists of numbers). -/
structure SerLib (α : Type) where
  dumps : α → List Nat
  loads : List Nat → Option α
  compressBytes : List Nat → List Nat
  decompressBytes : List Nat → List Nat

/-- A stored cache slot: the Python object itself, or the gzip bytes the
compression path stores in its place. -/
inductive Stored (α : Type)
  | raw (v : α)
  | compressed (data : List Nat)
deriving DecidableEq, Repr

/-- What `CacheManager.get` hands back on a hit: the cached object, or raw
bytes when a compressed slot is returned without decompression. -/
inductive GetVal (α : Type)
  | obj (v : α)
  | bytes (data : List Nat)
deriving DecidableEq, Repr

/-- Configuration and mutable state of a `CacheManager` instance. -/
structure Cache (α : Type) where
  max_size : Nat
  default_ttl : ℚ
  compression_threshold : Nat
  cache : List (String × Stored α)
  ttl_data : List (String × ℚ)
  compressed_keys : List String
deriving DecidableEq, Repr

/-- `CacheManager._should_compress`: serialized size strictly above the
threshold. -/
def shouldCompress {α : Type} (lib : SerLib α) (threshold : Nat) (v : α) : Bool :=
  threshold < (lib.dumps v).length

/-- `CacheManager._compress`. -/
def compressVal {α : Type} (lib : SerLib α) (v : α) : List Nat :=
  lib.compressBytes (lib.dumps v)

/-- `CacheManager._decompress`. -/
def decompressVal {α : Type} (lib : SerLib α) (data : List Nat) : Option α :=
  lib.loads (lib.decompressBytes data)

/-- `CacheManager._is_expired`: no TTL entry counts as expired; otherwise
expired iff `now` is strictly past the recorded expiry. -/
def isExpired {α : Type} (c : Cache α) (key : String) (now : ℚ) : Bool :=
  match RateLimiter.lookupKey c.ttl_data key with
  | none => true
  | some exp => decide (exp < now)

/-- `CacheManager._remove`. -/
def removeKey {α : Type} (c : Cache α) (key : String) : Cache α :=
  { c with cache := RateLimiter.delKey c.cache key,
           ttl_data := RateLimiter.delKey c.ttl_data key,
           compressed_keys := c.compressed_keys.filter (fun k => decide (¬ k = key)) }

/-- `CacheManager._evict_lru`: drop the least-recent (front) entry. -/
def evictLru {α : Type} (c : Cache α) : Cache α :=
  match c.cache with
  | [] => c
  | (k, _) :: _ => removeKey c k

theorem evictLru_length_lt {α : Type} (c : Cache α) (h : c.cache ≠ []) :
    (evictLru c).cache.length < c.cache.length := by
  unfold evictLru
  cases hc : c.cache with
  | nil => exact absurd hc h
  | cons p rest =>
      cases p with
      | mk k s =>
          simp only [removeKey, RateLimiter.delKey, hc]
          rw [List.filter_cons]
          rw [if_neg (by simp)]
          have := List.length_filter_le (fun q : String × Stored α => decide (¬ q.1 = k)) rest
          simp only [List.length_cons]
          omega

/-- The `while len(self.cache) > self.max_size: self._evict_lru()` loop of
`CacheManager.set`. -/
def evictWhile {α : Type} (c : Cache α) : Cache α :=
  if h : c.max_size < c.cache.length then
    evictWhile (evictLru c)
  else c
termination_by c.cache.length
decreasing_by
  exact evictLru_length_lt c (by
    intro hnil
    rw [hnil] at h
    simp at h)

/-- The effective TTL of `CacheManager.set`: `ttl or self.default_ttl`
(Python truthiness: `None` and `0` both fall back to the default). -/
def resolveTtl {α : Type} (c : Cache α) (ttl : Option ℚ) : ℚ :=
  match ttl with
  | some t => if t = 0 then c.default_ttl else t
  | none => c.default_ttl

/-- The replacement step of `CacheManager.set`: drop any prior entry for
the key along with its compression mark. -/
def deleteStep {α : Type} (c : Cache α) (key : String) : Cache α :=
  if (RateLimiter.lookupKey c.cache key).isSome then
    { c with cache := RateLimiter.delKey c.cache key,
             compressed_keys := c.compressed_keys.filter (fun k => decide (¬ k = key)) }
  else c

/-- The storing step of `CacheManager.set`: append the value at the
most-recent end, compressed (and so marked) when the serialized size
exceeds the threshold. -/
def insertStep {α : Type} (lib : SerLib α) (c : Cache α) (key : String) (value : α) :
    Cache α :=
  if shouldCompress lib c.compression_threshold value then
    { c with cache := c.cache ++ [(key, Stored.compressed (compressVal lib value))],
             compressed_keys := if key ∈ c.compressed_keys then c.compressed_keys
                                else c.compressed_keys ++ [key] }
  else { c with cache := c.cache ++ [(key, Stored.raw value)] }

/-- The expiry step of `CacheManager.set`: record the absolute expiry. -/
def setTtlStep {α : Type} (c : Cache α) (key : String) (ttl : Option ℚ) (now : ℚ) :
    Cache α :=
  { c with ttl_data := RateLimiter.setKey c.ttl_data key (now + resolveTtl c ttl) }

/-- `CacheManager.set`: replacement, storing, expiry, then evict
least-recent entries while over `max_size`. -/
def set {α : Type} (lib : SerLib α) (c : Cache α) (key : String) (value : α)
    (ttl : Option ℚ) (now : ℚ) : Cache α :=
  evictWhile (setTtlStep (insertStep lib (deleteStep c key) key value) key ttl now)

/-- `CacheManager.get`: miss on absent key; an expired entry is removed and
reported as a miss; on a hit the entry moves to the most-recent end and is
decompressed iff the key is marked compressed. -/
def get {α : Type} (lib : SerLib α) (c : Cache α) (key : String) (now : ℚ) :
    Option (GetVal α) × Cache α :=
  match RateLimiter.lookupKey c.cache key with
  | none => (none, c)
  | some stored =>
      if isExpired c key now then (none, removeKey c key)
      else
        let moved : Cache α :=
          { c with cache := RateLimiter.delKey c.cache key ++ [(key, stored)] }
        if key ∈ c.compressed_keys then
          match stored with
          | .compressed data => ((decompressVal lib data).map GetVal.obj, moved)
          | .raw _ => (none, moved)
        else
          (some (match stored with
                 | .raw v => GetVal.obj v
                 | .compressed data => GetVal.bytes data), moved)

end CacheManager

namespace CacheManager

theorem lookupKey_delKey_ne {α : Type} (l : List (String × α)) (k' key : String)
    (hne : ¬ k' = key) :
    RateLimiter.lookupKey (RateLimiter.delKey l k') key = RateLimiter.lookupKey l key := by
  induction l with
  | nil => rfl
  | cons p rest ih =>
      unfold RateLimiter.delKey at ih ⊢
      rw [List.filter_cons]
      by_cases hp : p.1 = k'
      · rw [if_neg (by simp [hp])]
        have hpk : ¬ p.1 = key := by rw [hp]; exact hne
        unfold RateLimiter.lookupKey at ih ⊢
        rw [List.find?]
        simp only [decide_eq_false hpk]
        exact ih
      · rw [if_pos (by simp [hp])]
        unfold RateLimiter.lookupKey at ih ⊢
        by_cases hpk : p.1 = key
        · rw [List.find?, List.find?]
          simp [hpk]
        · rw [List.find?, List.find?]
          simp only [decide_eq_false hpk]
          exact ih

theorem evictWhile_preserves {α : Type} (key : String) (stored : Stored α) :
    ∀ (n : Nat) (c : Cache α) (pre : List (String × Stored α)),
      c.cache.length = n → 1 ≤ c.max_size →
      c.cache = pre ++ [(key, stored)] →
      RateLimiter.lookupKey pre key = none →
      RateLimiter.lookupKey (evictWhile c).cache key = some stored ∧
      RateLimiter.lookupKey (evictWhile c).ttl_data key =
        RateLimiter.lookupKey c.ttl_data key ∧
      (key ∈ (evictWhile c).compressed_keys ↔ key ∈ c.compressed_keys) := by
  intro n
  induction n using Nat.strong_induction_on with
  | _ n ih =>
      intro c pre hlen hmax hcache hpre
      rw [evictWhile]
      by_cases hov : c.max_size < c.cache.length
      · rw [dif_pos hov]
        rcases pre with _ | ⟨⟨k0, s0⟩, pre'⟩
        · exfalso
          rw [hcache] at hov
          simp only [List.nil_append, List.length_singleton] at hov
          omega
        · have hkeys := RateLimiter.lookupKey_none_iff.mp hpre
          have hp0 : ¬ k0 = key := by
            have := hkeys (k0, s0) (List.mem_cons_self _ _)
            simpa using this
          have hpre2 : RateLimiter.lookupKey pre' key = none :=
            RateLimiter.lookupKey_none_iff.mpr
              (fun x hx => hkeys x (List.mem_cons_of_mem _ hx))
          have hkk : (fun q : String × Stored α => decide (¬ q.1 = k0)) (key, stored)
              = true := by
            simp only [decide_eq_true_eq]
            intro h
            exact hp0 h.symm
          have hLruCache : (evictLru c).cache =
              RateLimiter.delKey pre' k0 ++ [(key, stored)] := by
            simp only [evictLru, hcache, removeKey, RateLimiter.delKey, List.cons_append]
            rw [List.filter_cons, if_neg (by simp), List.filter_append]
            simp only [List.filter_cons, List.filter_nil, hkk, if_true]
          have hLruTtl : (evictLru c).ttl_data = RateLimiter.delKey c.ttl_data k0 := by
            simp only [evictLru, hcache, removeKey, List.cons_append]
          have hLruComp : (evictLru c).compressed_keys =
              c.compressed_keys.filter (fun k => decide (¬ k = k0)) := by
            simp only [evictLru, hcache, removeKey, List.cons_append]
          have hLruMax : (evictLru c).max_size = c.max_size := by
            simp only [evictLru, hcache, removeKey, List.cons_append]
          have hlt : (evictLru c).cache.length < n := by
            rw [← hlen]
            exact evictLru_length_lt c (by rw [hcache]; simp)
          have hrec := ih (evictLru c).cache.length hlt (evictLru c)
            (RateLimiter.delKey pre' k0) rfl (hLruMax ▸ hmax) hLruCache
            (RateLimiter.lookupKey_filter_none _ hpre2)
          refine ⟨hrec.1, ?_, ?_⟩
          · rw [hrec.2.1, hLruTtl]
            exact lookupKey_delKey_ne c.ttl_data k0 key hp0
          · rw [hrec.2.2, hLruComp]
            constructor
            · exact fun hin => List.mem_of_mem_filter hin
            · intro hin
              refine List.mem_filter.mpr ⟨hin, ?_⟩
              simp only [decide_eq_true_eq]
              intro h
              exact hp0 h.symm
      · rw [dif_neg hov]
        refine ⟨?_, rfl, Iff.rfl⟩
        rw [hcache]
        exact RateLimiter.lookupKey_append_of_none _ hpre

end CacheManager

namespace CacheManager

theorem lookupKey_delKey_self {α : Type} (l : List (String × α)) (k : String) :
    RateLimiter.lookupKey (RateLimiter.delKey l k) k = none := by
  rw [RateLimiter.lookupKey_none_iff]
  intro x hx
  have := List.mem_filter.mp hx
  simpa using this.2

theorem deleteStep_cache_none {α : Type} (c : Cache α) (key : String) :
    RateLimiter.lookupKey (deleteStep c key).cache key = none := by
  unfold deleteStep
  cases hl : RateLimiter.lookupKey c.cache key with
  | none => simpa [hl]
  | some w =>
      simp only [hl, Option.isSome_some, if_true]
      exact lookupKey_delKey_self c.cache key

theorem deleteStep_compressed_not_mem {α : Type} (c : Cache α) (key : String)
    (hyp : RateLimiter.lookupKey c.cache key = none → key ∉ c.compressed_keys) :
    key ∉ (deleteStep c key).compressed_keys := by
  unfold deleteStep
  cases hl : RateLimiter.lookupKey c.cache key with
  | none => simpa [hl] using hyp hl
  | some w =>
      simp only [hl, Option.isSome_some, if_true]
      intro hin
      have := List.mem_filter.mp hin
      simp at this

theorem deleteStep_fields {α : Type} (c : Cache α) (key : String) :
    (deleteStep c key).ttl_data = c.ttl_data ∧
    (deleteStep c key).max_size = c.max_size ∧
    (deleteStep c key).default_ttl = c.default_ttl ∧
    (deleteStep c key).compression_threshold = c.compression_threshold := by
  unfold deleteStep
  split <;> exact ⟨rfl, rfl, rfl, rfl⟩

theorem resolveTtl_congr {α β : Type} (c₁ : Cache α) (c₂ : Cache β) (ttl : Option ℚ)
    (h : c₁.default_ttl = c₂.default_ttl) : resolveTtl c₁ ttl = resolveTtl c₂ ttl := by
  unfold resolveTtl
  cases ttl with
  | none => exact h
  | some t =>
      by_cases ht : t = 0
      · simp [ht, h]
      · simp [ht]

/-- Evaluation of `get` on a cache whose entry for the key sits (uniquely)
at the most-recent end with an unexpired TTL, after the eviction loop. -/
theorem get_hit {α : Type} (lib : SerLib α) (c : Cache α) (key : String)
    (stored : Stored α) (e tget : ℚ) (pre : List (String × Stored α))
    (hmax : 1 ≤ c.max_size)
    (hcache : c.cache = pre ++ [(key, stored)])
    (hpre : RateLimiter.lookupKey pre key = none)
    (httl : RateLimiter.lookupKey c.ttl_data key = some e)
    (hfresh : ¬ e < tget) :
    (get lib (evictWhile c) key tget).1 =
      (if key ∈ c.compressed_keys then
        match stored with
        | .compressed data => (decompressVal lib data).map GetVal.obj
        | .raw _ => none
      else some (match stored with
                 | .raw v => GetVal.obj v
                 | .compressed data => GetVal.bytes data)) := by
  obtain ⟨h1, h2, h3⟩ :=
    evictWhile_preserves key stored c.cache.length c pre rfl hmax hcache hpre
  have hexp : isExpired (evictWhile c) key tget = false := by
    unfold isExpired
    rw [h2, httl]
    simpa using hfresh
  unfold get
  rw [h1]
  simp only [hexp, Bool.false_eq_true, if_false]
  by_cases hmem : key ∈ c.compressed_keys
  · rw [if_pos (h3.mpr hmem), if_pos hmem]
    cases stored <;> rfl
  · rw [if_neg (fun hx => hmem (h3.mp hx)), if_neg hmem]
    cases stored <;> rfl

end CacheManager

/-- C6: cache round-trip.  For every key and value, `set(k, v)` followed by
`get(k)` before the entry's TTL expires returns the stored value, whether or
not the serialized size exceeded the compression threshold — compression and
decompression are transparent.  Hypotheses: the cache has room for at least
one entry; the pickle/gzip round-trip laws of the external libraries; the
Python representation invariant that compression marks only mark cached
keys; and the freshness bound `tget ≤ tset + effective-ttl`. -/
theorem cache_roundtrip :
    ∀ {α : Type} (lib : CacheManager.SerLib α) (c : CacheManager.Cache α)
      (key : String) (v : α) (ttl : Option ℚ) (tset tget : ℚ),
      1 ≤ c.max_size →
      (∀ x : α, lib.loads (lib.decompressBytes (lib.compressBytes (lib.dumps x))) = some x) →
      (RateLimiter.lookupKey c.cache key = none → key ∉ c.compressed_keys) →
      tget ≤ tset + CacheManager.resolveTtl c ttl →
      (CacheManager.get lib (CacheManager.set lib c key v ttl tset) key tget).1 =
        some (.obj v) := by
  intro α lib c key v ttl tset tget hmax hround hmark hfresh
  obtain ⟨hf1, hf2, hf3, hf4⟩ := CacheManager.deleteStep_fields c key
  have hdelnone := CacheManager.deleteStep_cache_none c key
  have hdelmark := CacheManager.deleteStep_compressed_not_mem c key hmark
  unfold CacheManager.set
  by_cases hcomp : CacheManager.shouldCompress lib
      (CacheManager.deleteStep c key).compression_threshold v
  · -- compressed path
    have hins : CacheManager.insertStep lib (CacheManager.deleteStep c key) key v =
        { (CacheManager.deleteStep c key) with
          cache := (CacheManager.deleteStep c key).cache ++
            [(key, CacheManager.Stored.compressed (CacheManager.compressVal lib v))],
          compressed_keys := (CacheManager.deleteStep c key).compressed_keys ++ [key] } := by
      unfold CacheManager.insertStep
      rw [if_pos hcomp, if_neg hdelmark]
    rw [hins]
    have hresolve : CacheManager.resolveTtl
        ({ (CacheManager.deleteStep c key) with
           cache := (CacheManager.deleteStep c key).cache ++
             [(key, CacheManager.Stored.compressed (CacheManager.compressVal lib v))],
           compressed_keys := (CacheManager.deleteStep c key).compressed_keys ++ [key] } :
          CacheManager.Cache α) ttl = CacheManager.resolveTtl c ttl :=
      CacheManager.resolveTtl_congr _ _ ttl hf3
    have hhit := CacheManager.get_hit lib
      (CacheManager.setTtlStep
        ({ (CacheManager.deleteStep c key) with
           cache := (CacheManager.deleteStep c key).cache ++
             [(key, CacheManager.Stored.compressed (CacheManager.compressVal lib v))],
           compressed_keys := (CacheManager.deleteStep c key).compressed_keys ++ [key] } :
          CacheManager.Cache α) key ttl tset)
      key (CacheManager.Stored.compressed (CacheManager.compressVal lib v))
      (tset + CacheManager.resolveTtl c ttl) tget
      (CacheManager.deleteStep c key).cache
      (by simpa [CacheManager.setTtlStep, hf2] using hmax)
      (by simp [CacheManager.setTtlStep])
      hdelnone
      (by simp only [CacheManager.setTtlStep, hresolve]
          exact RateLimiter.lookupKey_setKey_self _ _ _)
      (by exact not_lt.mpr hfresh)
    rw [hhit]
    rw [if_pos (by simp [CacheManager.setTtlStep])]
    show (CacheManager.decompressVal lib (CacheManager.compressVal lib v)).map
        CacheManager.GetVal.obj = some (CacheManager.GetVal.obj v)
    unfold CacheManager.decompressVal CacheManager.compressVal
    rw [hround v]
    rfl
  · -- raw path
    have hins : CacheManager.insertStep lib (CacheManager.deleteStep c key) key v =
        { (CacheManager.deleteStep c key) with
          cache := (CacheManager.deleteStep c key).cache ++
            [(key, CacheManager.Stored.raw v)] } := by
      unfold CacheManager.insertStep
      rw [if_neg hcomp]
    rw [hins]
    have hresolve : CacheManager.resolveTtl
        ({ (CacheManager.deleteStep c key) with
           cache := (CacheManager.deleteStep c key).cache ++
             [(key, CacheManager.Stored.raw v)] } : CacheManager.Cache α) ttl =
        CacheManager.resolveTtl c ttl :=
      CacheManager.resolveTtl_congr _ _ ttl hf3
    have hhit := CacheManager.get_hit lib
      (CacheManager.setTtlStep
        ({ (CacheManager.deleteStep c key) with
           cache := (CacheManager.deleteStep c key).cache ++
             [(key, CacheManager.Stored.raw v)] } : CacheManager.Cache α) key ttl tset)
      key (CacheManager.Stored.raw v)
      (tset + CacheManager.resolveTtl c ttl) tget
      (CacheManager.deleteStep c key).cache
      (by simpa [CacheManager.setTtlStep, hf2] using hmax)
      (by simp [CacheManager.setTtlStep])
      hdelnone
      (by simp only [CacheManager.setTtlStep, hresolve]
          exact RateLimiter.lookupKey_setKey_self _ _ _)
      (by exact not_lt.mpr hfresh)
    rw [hhit]
    rw [if_neg (by simpa [CacheManager.setTtlStep] using hdelmark)]

/-- Witness for C6: a value whose 3-byte serialization exceeds the
2-byte compression threshold round-trips through a concrete
serialization library on an initially empty cache. -/
theorem cache_roundtrip_witness :
    (CacheManager.get
      ⟨fun n => [n, n, n], fun l => l.head?, id, id⟩
      (CacheManager.set ⟨fun n => [n, n, n], fun l => l.head?, id, id⟩
        ⟨1, 300, 2, [], [], []⟩ "k" 42 none 0)
      "k" 100).1 = some (.obj 42) := by
  have h := cache_roundtrip ⟨fun n => [n, n, n], fun l => l.head?, id, id⟩
    ⟨1, 300, 2, [], [], []⟩ "k" 42 none 0 100
    (by norm_num) (fun x => rfl) (fun _ => by simp)
    (by norm_num [CacheManager.resolveTtl])
  exact h

namespace InputValidator

/-! ## Input validator (`src/core/input_validator.py`, class `InputValidator`)

Strings are worked on as `List Char`.  Python's `\w` and `\s` character
classes are modelled over ASCII (the inputs the validator guards are ASCII
protocol ids; messages use only the escape-relevant characters in the
claims).  `str.strip()` removes the ASCII whitespace characters from both
ends; `str.lower()` maps A–Z to a–z. -/

/-- ASCII model of Python `str.strip()` / `\s` whitespace. -/
def pyIsSpace (c : Char) : Bool :=
  decide (c = ' ') || decide (c = '\t') || decide (c = '\n') || decide (c = '\r') ||
    decide (c = '\x0b') || decide (c = '\x0c')

/-- `str.strip()`: drop whitespace from both ends. -/
def pyStripList (l : List Char) : List Char :=
  ((l.dropWhile pyIsSpace).reverse.dropWhile pyIsSpace).reverse

/-- `str.lower()` on one character (ASCII). -/
def lowerChar (c : Char) : Char :=
  match c with
  | 'A' => 'a' | 'B' => 'b' | 'C' => 'c' | 'D' => 'd' | 'E' => 'e' | 'F' => 'f'
  | 'G' => 'g' | 'H' => 'h' | 'I' => 'i' | 'J' => 'j' | 'K' => 'k' | 'L' => 'l'
  | 'M' => 'm' | 'N' => 'n' | 'O' => 'o' | 'P' => 'p' | 'Q' => 'q' | 'R' => 'r'
  | 'S' => 's' | 'T' => 't' | 'U' => 'u' | 'V' => 'v' | 'W' => 'w' | 'X' => 'x'
  | 'Y' => 'y' | 'Z' => 'z'
  | c => c

/-- `str.lower()`. -/
def lowerList (l : List Char) : List Char := l.map lowerChar

/-- The `[a-f0-9]` class of the UUID / address regexes. -/
def isHexLower (c : Char) : Bool :=
  (decide ('a' ≤ c) && decide (c ≤ 'f')) || (decide ('0' ≤ c) && decide (c ≤ '9'))

/-- ASCII model of the regex `\w` class. -/
def pyIsWordChar (c : Char) : Bool :=
  (decide ('a' ≤ c) && decide (c ≤ 'z')) || (decide ('A' ≤ c) && decide (c ≤ 'Z')) ||
    (decide ('0' ≤ c) && decide (c ≤ '9')) || decide (c = '_')

/-- The `[\w\-]` class of the project-id regex. -/
def wordDash (c : Char) : Bool := pyIsWordChar c || decide (c = '-')

/-- Consume exactly `n` lowercase-hex characters (a `[a-f0-9]{n}` regex
piece). -/
def hexRun : Nat → List Char → Option (List Char)
  | 0, l => some l
  | _ + 1, [] => none
  | n + 1, c :: rest => if isHexLower c then hexRun n rest else none

/-- Consume a literal `-`. -/
def expectDash : List Char → Option (List Char)
  | '-' :: rest => some rest
  | _ => none

/-- Match dash-separated hex segments of the given lengths against the
whole input (anchored on both sides). -/
def segsMatch : List Nat → List Char → Bool
  | [], l => decide (l = [])
  | n :: ns, l =>
      match hexRun n l with
      | none => false
      | some l1 =>
          match ns with
          | [] => decide (l1 = [])
          | _ :: _ =>
              match expectDash l1 with
              | none => false
              | some l2 => segsMatch ns l2

/-- The UUID shape `^[a-f0-9]{8}-[a-f0-9]{4}-[a-f0-9]{4}-[a-f0-9]{4}-[a-f0-9]{12}$`
of `_validate_session_id`. -/
def uuidMatch (l : List Char) : Bool := segsMatch [8, 4, 4, 4, 12] l

/-- `InputValidator._validate_session_id`: strip, lowercase, require the
canonical UUID shape. -/
def validate_session_id (s : String) : Except String String :=
  let r := lowerList (pyStripList s.data)
  if uuidMatch r then .ok (String.mk r) else .error "Session ID invalido"

/-- `InputValidator._validate_project_id`: trim; at most 100 characters;
must fully match `[\w\-]+`. -/
def validate_project_id (s : String) : Except String String :=
  let r := pyStripList s.data
  if 100 < r.length then .error "Project ID muito longo"
  else if decide (r ≠ []) && r.all wordDash then .ok (String.mk r)
  else .error "Project ID contem caracteres invalidos"

/-- The `value[2:]` prefix strip of `validate_address`. -/
def dropHexPrefix (l : List Char) : List Char :=
  match l with
  | '0' :: 'x' :: rest => rest
  | _ => l

/-- `InputValidator.validate_address`: strip, lowercase, drop a `0x`
prefix, require exactly 16 lowercase-hex characters. -/
def validate_address (s : String) : Except String String :=
  let v := lowerList (pyStripList s.data)
  let r := dropHexPrefix v
  if decide (r.length = 16) && r.all isHexLower then .ok (String.mk r)
  else .error "Endereco Flow invalido"

/-- Python numbers flowing through `_validate_number` (`float(str)` parsing
of string inputs produces the same numeric values, so the numeric domain
suffices for re-validation). -/
inductive PyNum
  | int (n : Int)
  | float (q : ℚ)
deriving DecidableEq, Repr

/-- `InputValidator._validate_number`: coerce to float, collapse
integer-valued floats (`num.is_integer()`) back to int. -/
def validate_number (v : PyNum) : Except String PyNum :=
  let num : ℚ := match v with
    | .int n => (n : ℚ)
    | .float q => q
  .ok (if num.den = 1 then .int num.num else .float num)

end InputValidator

namespace InputValidator

/-! ### The XSS pattern pass of `_validate_message`

`XSS_PATTERNS` are embedded as executable matchers over `List Char`.
`re.IGNORECASE` is modelled by lowercasing the subject character before
comparing with the lowercase pattern literal; `re.sub` removes all
non-overlapping matches scanning left to right; `.` does not cross a
newline; `[^>]*` is the run of non-`>` characters before the first `>`. -/

/-- Case-insensitive literal match; returns the rest after the pattern. -/
def matchLit : List Char → List Char → Option (List Char)
  | [], l => some l
  | _ :: _, [] => none
  | p :: ps, c :: cs => if lowerChar c = p then matchLit ps cs else none

theorem matchLit_length : ∀ (pat l r : List Char), matchLit pat l = some r →
    r.length + pat.length = l.length := by
  intro pat
  induction pat with
  | nil =>
      intro l r h
      simp only [matchLit, Option.some.injEq] at h
      simp [h]
  | cons p ps ih =>
      intro l r h
      cases l with
      | nil => simp [matchLit] at h
      | cons c cs =>
          unfold matchLit at h
          by_cases hc : lowerChar c = p
          · rw [if_pos hc] at h
            have := ih cs r h
            simp only [List.length_cons]
            omega
          · rw [if_neg hc] at h
            exact absurd h (by simp)

theorem matchLit_length_lt {pat l r : List Char} (hne : pat ≠ [])
    (h : matchLit pat l = some r) : r.length < l.length := by
  have := matchLit_length pat l r h
  have hpos : 0 < pat.length := List.length_pos.mpr hne
  omega

/-- The lazy `.*?</script>` tail: scan forward (never across a newline) for
the closing literal. -/
def scanForClose : List Char → Option (List Char)
  | [] => none
  | c :: cs =>
      match matchLit "</script>".data (c :: cs) with
      | some rest => some rest
      | none => if c = '\n' then none else scanForClose cs

theorem scanForClose_length : ∀ (l r : List Char), scanForClose l = some r →
    r.length < l.length := by
  intro l
  induction l with
  | nil => intro r h; simp [scanForClose] at h
  | cons c cs ih =>
      intro r h
      unfold scanForClose at h
      cases hm : matchLit "</script>".data (c :: cs) with
      | some rest =>
          rw [hm] at h
          simp only [Option.some.injEq] at h
          subst h
          exact matchLit_length_lt (by decide) hm
      | none =>
          rw [hm] at h
          by_cases hn : c = '\n'
          · rw [if_pos hn] at h
            exact absurd h (by simp)
          · rw [if_neg hn] at h
            have := ih r h
            simp only [List.length_cons]
            omega

/-- A pattern matcher together with the fact that every match consumes at
least one character (all six patterns are non-empty). -/
structure Matcher where
  run : List Char → Option (List Char)
  consumes : ∀ l r, run l = some r → r.length < l.length

/-- The `[^>]*>` piece shared by the script and iframe patterns: the run of
non-`>` characters, then the `>`. -/
def afterGt (l1 : List Char) : Option (List Char) :=
  match l1.dropWhile (fun c => decide (¬ c = '>')) with
  | '>' :: l3 => some l3
  | _ => none

theorem afterGt_length (l1 r : List Char) (h : afterGt l1 = some r) :
    r.length < l1.length := by
  unfold afterGt at h
  split at h
  · rename_i l3 heq
    simp only [Option.some.injEq] at h
    subst h
    have hle : (l1.dropWhile (fun c => decide (¬ c = '>'))).length ≤ l1.length :=
      (List.dropWhile_sublist _).length_le
    rw [heq] at hle
    simp only [List.length_cons] at hle
    omega
  · exact absurd h (by simp)

/-- `<script[^>]*>.*?</script>`. -/
def scriptRun (l : List Char) : Option (List Char) :=
  (matchLit "<script".data l).bind (fun l1 => (afterGt l1).bind scanForClose)

theorem scriptRun_consumes : ∀ l r, scriptRun l = some r → r.length < l.length := by
  intro l r h
  unfold scriptRun at h
  rw [Option.bind_eq_some] at h
  obtain ⟨l1, hm, h2⟩ := h
  rw [Option.bind_eq_some] at h2
  obtain ⟨l2, hg, hs⟩ := h2
  have t1 := matchLit_length_lt (by decide) hm
  have t2 := afterGt_length l1 l2 hg
  have t3 := scanForClose_length l2 r hs
  omega

/-- `<iframe[^>]*>`. -/
def iframeRun (l : List Char) : Option (List Char) :=
  (matchLit "<iframe".data l).bind afterGt

theorem iframeRun_consumes : ∀ l r, iframeRun l = some r → r.length < l.length := by
  intro l r h
  unfold iframeRun at h
  rw [Option.bind_eq_some] at h
  obtain ⟨l1, hm, hg⟩ := h
  have t1 := matchLit_length_lt (by decide) hm
  have t2 := afterGt_length l1 r hg
  omega

/-- The `\w+\s*=` piece of `on\w+\s*=`: at least one word character, then
whitespace, then `=`. -/
def onTail (l1 : List Char) : Option (List Char) :=
  match l1 with
  | [] => none
  | c :: cs =>
      if pyIsWordChar c then
        match ((c :: cs).dropWhile pyIsWordChar).dropWhile pyIsSpace with
        | '=' :: l4 => some l4
        | _ => none
      else none

theorem onTail_length : ∀ (l1 r : List Char), onTail l1 = some r →
    r.length < l1.length := by
  intro l1 r h
  unfold onTail at h
  split at h
  · exact absurd h (by simp)
  · rename_i c cs
    split at h
    · split at h
      · rename_i l4 heq
        simp only [Option.some.injEq] at h
        subst h
        have hle : (((c :: cs).dropWhile pyIsWordChar).dropWhile pyIsSpace).length ≤
            (c :: cs).length :=
          le_trans (List.dropWhile_sublist _).length_le
            (List.dropWhile_sublist _).length_le
        rw [heq] at hle
        simp only [List.length_cons] at hle ⊢
        omega
      · exact absurd h (by simp)
    · exact absurd h (by simp)

/-- `on\w+\s*=`. -/
def onRun (l : List Char) : Option (List Char) :=
  (matchLit "on".data l).bind onTail

theorem onRun_consumes : ∀ l r, onRun l = some r → r.length < l.length := by
  intro l r h
  unfold onRun at h
  rw [Option.bind_eq_some] at h
  obtain ⟨l1, hm, ht⟩ := h
  have t1 := matchLit_length_lt (by decide) hm
  have t2 := onTail_length l1 r ht
  omega

end InputValidator

namespace InputValidator

/-- The six `XSS_PATTERNS`, in source order. -/
def scriptM : Matcher := ⟨scriptRun, scriptRun_consumes⟩

def jsProtoM : Matcher :=
  ⟨matchLit "javascript:".data, fun _ _ h => matchLit_length_lt (by decide) h⟩

def onAttrM : Matcher := ⟨onRun, onRun_consumes⟩

def iframeM : Matcher := ⟨iframeRun, iframeRun_consumes⟩

def vbsProtoM : Matcher :=
  ⟨matchLit "vbscript:".data, fun _ _ h => matchLit_length_lt (by decide) h⟩

def dataHtmlM : Matcher :=
  ⟨matchLit "data:text/html".data, fun _ _ h => matchLit_length_lt (by decide) h⟩

def xssMatchers : List Matcher := [scriptM, jsProtoM, onAttrM, iframeM, vbsProtoM, dataHtmlM]

/-- `re.search`: does the pattern match at any start position? -/
def searchB (m : Matcher) : List Char → Bool
  | [] => (m.run []).isSome
  | c :: cs => (m.run (c :: cs)).isSome || searchB m cs

/-- `re.sub(pattern, \x27\x27, value)`: remove every non-overlapping match,
scanning left to right. -/
def subAll (m : Matcher) : List Char → List Char
  | [] => []
  | c :: cs =>
      match h : m.run (c :: cs) with
      | some rest => subAll m rest
      | none => c :: subAll m cs
termination_by l => l.length
decreasing_by
  · exact m.consumes _ _ h
  · simp

/-- The XSS loop of `_validate_message`: for each pattern, if it occurs,
remove all its matches. -/
def xssStrip (l : List Char) : List Char :=
  xssMatchers.foldl (fun acc m => if searchB m acc then subAll m acc else acc) l

/-- `html.escape(value)` with `quote=True` on one character. -/
def escapeChar (c : Char) : List Char :=
  if c = '&' then "&amp;".data
  else if c = '<' then "&lt;".data
  else if c = '>' then "&gt;".data
  else if c = '"' then "&quot;".data
  else if c = '\'' then "&#x27;".data
  else [c]

/-- `html.escape` (the `&` replacement runs first, so the escaping is
character-wise). -/
def htmlEscape (l : List Char) : List Char := (l.map escapeChar).join

/-- `InputValidator._validate_message`: remove NUL characters, reject over
50 000 characters, strip XSS patterns, HTML-escape, trim.  (The leading
list/str coercion is the identity on string payloads.) -/
def validate_message (s : String) : Except String String :=
  let v := s.data.filter (fun c => decide (¬ c = '\x00'))
  if 50000 < v.length then .error "Mensagem muito longa"
  else .ok (String.mk (pyStripList (htmlEscape (xssStrip v))))

end InputValidator

namespace InputValidator

theorem dropWhile_eq_self_all {p : Char → Bool} {l : List Char}
    (h : ∀ c ∈ l, p c = false) : l.dropWhile p = l := by
  cases l with
  | nil => rfl
  | cons c cs =>
      rw [List.dropWhile_cons]
      rw [if_neg (by rw [h c (List.mem_cons_self c cs)]; simp)]

theorem pyStripList_eq_self {l : List Char}
    (h : ∀ c ∈ l, pyIsSpace c = false) : pyStripList l = l := by
  unfold pyStripList
  rw [dropWhile_eq_self_all h]
  rw [dropWhile_eq_self_all (fun c hc => h c (List.mem_reverse.mp hc))]
  exact List.reverse_reverse l

theorem lowerList_eq_self {l : List Char}
    (h : ∀ c ∈ l, lowerChar c = c) : lowerList l = l := by
  unfold lowerList
  induction l with
  | nil => rfl
  | cons c cs ih =>
      rw [List.map_cons, h c (List.mem_cons_self c cs),
        ih (fun d hd => h d (List.mem_cons_of_mem c hd))]

theorem hexDash_not_space {c : Char}
    (h : (isHexLower c || decide (c = '-')) = true) : pyIsSpace c = false := by
  by_contra hs
  have hs' : pyIsSpace c = true := by simpa using hs
  simp only [pyIsSpace, Bool.or_eq_true, decide_eq_true_eq] at hs'
  rcases hs' with ((((rfl | rfl) | rfl) | rfl) | rfl) | rfl <;>
    exact absurd h (by decide)

theorem hexDash_lower_fix {c : Char}
    (h : (isHexLower c || decide (c = '-')) = true) : lowerChar c = c := by
  unfold lowerChar
  split <;> first | rfl | exact absurd h (by decide)

theorem wordDash_not_space {c : Char} (h : wordDash c = true) : pyIsSpace c = false := by
  by_contra hs
  have hs' : pyIsSpace c = true := by simpa using hs
  simp only [pyIsSpace, Bool.or_eq_true, decide_eq_true_eq] at hs'
  rcases hs' with ((((rfl | rfl) | rfl) | rfl) | rfl) | rfl <;>
    exact absurd h (by decide)

theorem hexRun_chars : ∀ (n : Nat) (l r : List Char), hexRun n l = some r →
    ∀ c ∈ l, isHexLower c = true ∨ c ∈ r := by
  intro n
  induction n with
  | zero =>
      intro l r h c hc
      right
      simp only [hexRun, Option.some.injEq] at h
      rwa [← h]
  | succ n ih =>
      intro l r h c hc
      cases l with
      | nil => simp [hexRun] at h
      | cons a as =>
          unfold hexRun at h
          by_cases ha : isHexLower a
          · rw [if_pos ha] at h
            rcases List.mem_cons.mp hc with rfl | hmem
            · exact Or.inl ha
            · exact ih as r h c hmem
          · rw [if_neg ha] at h
            exact absurd h (by simp)

theorem expectDash_chars : ∀ (l r : List Char), expectDash l = some r →
    ∀ c ∈ l, c = '-' ∨ c ∈ r := by
  intro l r h c hc
  unfold expectDash at h
  split at h
  · simp only [Option.some.injEq] at h
    subst h
    rcases List.mem_cons.mp hc with rfl | hmem
    · exact Or.inl rfl
    · exact Or.inr hmem
  · exact absurd h (by simp)

theorem segsMatch_chars : ∀ (ns : List Nat) (l : List Char), segsMatch ns l = true →
    ∀ c ∈ l, isHexLower c = true ∨ c = '-' := by
  intro ns
  induction ns with
  | nil =>
      intro l h c hc
      simp only [segsMatch, decide_eq_true_eq] at h
      subst h
      simp at hc
  | cons n ns ih =>
      intro l h c hc
      unfold segsMatch at h
      split at h
      · exact absurd h (by simp)
      · rename_i l1 hr
        have hstep := hexRun_chars n l l1 hr c hc
        rcases hstep with hhex | hmem1
        · exact Or.inl hhex
        · cases ns with
          | nil =>
              simp only [decide_eq_true_eq] at h
              rw [h] at hmem1
              simp at hmem1
          | cons m ms =>
              split at h
              · rename_i heqnil
                exact absurd heqnil (by simp)
              · split at h
                · exact absurd h (by simp)
                · rename_i l2 hd
                  rcases expectDash_chars l1 l2 hd c hmem1 with hdash | hmem2
                  · exact Or.inr hdash
                  · exact ih l2 h c hmem2

theorem hex_not_space {c : Char} (h : isHexLower c = true) : pyIsSpace c = false :=
  hexDash_not_space (by simp [h])

theorem hex_lower_fix {c : Char} (h : isHexLower c = true) : lowerChar c = c :=
  hexDash_lower_fix (by simp [h])

theorem dropHexPrefix_eq_self {l : List Char}
    (h : ∀ c ∈ l, isHexLower c = true) : dropHexPrefix l = l := by
  unfold dropHexPrefix
  split
  · exfalso
    have hx := h 'x' (List.mem_cons_of_mem _ (List.mem_cons_self _ _))
    exact absurd hx (by decide)
  · rfl

end InputValidator

/-- C5 counterexample: chat-message validation is not idempotent.
`html.escape` runs on every pass, so the `&` written by the first
validation is escaped again by the second:
`validate("a&b") = "a&amp;b"` but `validate("a&amp;b") = "a&amp;amp;b"`. -/
theorem validator_idempotence_counterexample :
    InputValidator.validate_message "a&b" = .ok "a&amp;b" ∧
    InputValidator.validate_message "a&amp;b" = .ok "a&amp;amp;b" ∧
    ("a&amp;b" : String) ≠ "a&amp;amp;b" :=
  ⟨rfl, rfl, by decide⟩

/-- C5 (amended): validation is idempotent for session ids, project ids,
addresses and numbers — re-validating any accepted output returns it
unchanged; for chat messages idempotence fails, because HTML escaping
re-escapes the `&` of entities produced by the previous pass. -/
theorem validator_idempotence_amended :
    (∀ s r, InputValidator.validate_session_id s = .ok r →
      InputValidator.validate_session_id r = .ok r) ∧
    (∀ s r, InputValidator.validate_project_id s = .ok r →
      InputValidator.validate_project_id r = .ok r) ∧
    (∀ s r, InputValidator.validate_address s = .ok r →
      InputValidator.validate_address r = .ok r) ∧
    (∀ v r, InputValidator.validate_number v = .ok r →
      InputValidator.validate_number r = .ok r) := by
  refine ⟨?_, ?_, ?_, ?_⟩
  · intro s r h
    simp only [InputValidator.validate_session_id] at h ⊢
    split at h
    · rename_i hu
      simp only [Except.ok.injEq] at h
      subst h
      have hchars := InputValidator.segsMatch_chars _ _ hu
      have hcls : ∀ c ∈ InputValidator.lowerList (InputValidator.pyStripList s.data),
          (InputValidator.isHexLower c || decide (c = '-')) = true := by
        intro c hc
        rcases hchars c hc with hh | hd
        · simp [hh]
        · simp [hd]
      have hdata : (String.mk (InputValidator.lowerList
          (InputValidator.pyStripList s.data))).data =
          InputValidator.lowerList (InputValidator.pyStripList s.data) := rfl
      rw [hdata]
      rw [InputValidator.pyStripList_eq_self
        (fun c hc => InputValidator.hexDash_not_space (hcls c hc))]
      rw [InputValidator.lowerList_eq_self
        (fun c hc => InputValidator.hexDash_lower_fix (hcls c hc))]
      rw [if_pos hu]
    · exact absurd h (by simp)
  · intro s r h
    simp only [InputValidator.validate_project_id] at h ⊢
    split at h
    · exact absurd h (by simp)
    · rename_i hlen
      split at h
      · rename_i hall
        simp only [Except.ok.injEq] at h
        subst h
        have hall' := hall
        rw [Bool.and_eq_true, decide_eq_true_eq, List.all_eq_true] at hall'
        have hdata : (String.mk (InputValidator.pyStripList s.data)).data =
            InputValidator.pyStripList s.data := rfl
        rw [hdata]
        rw [InputValidator.pyStripList_eq_self
          (fun c hc => InputValidator.wordDash_not_space (hall'.2 c hc))]
        rw [if_neg hlen, if_pos hall]
      · exact absurd h (by simp)
  · intro s r h
    simp only [InputValidator.validate_address] at h ⊢
    split at h
    · rename_i hg
      simp only [Except.ok.injEq] at h
      subst h
      have hg' := hg
      rw [Bool.and_eq_true, decide_eq_true_eq, List.all_eq_true] at hg'
      have hdata : (String.mk (InputValidator.dropHexPrefix
          (InputValidator.lowerList (InputValidator.pyStripList s.data)))).data =
          InputValidator.dropHexPrefix
            (InputValidator.lowerList (InputValidator.pyStripList s.data)) := rfl
      rw [hdata]
      rw [InputValidator.pyStripList_eq_self
        (fun c hc => InputValidator.hex_not_space (hg'.2 c hc))]
      rw [InputValidator.lowerList_eq_self
        (fun c hc => InputValidator.hex_lower_fix (hg'.2 c hc))]
      rw [InputValidator.dropHexPrefix_eq_self hg'.2]
      rw [if_pos hg]
    · exact absurd h (by simp)
  · intro v r h
    cases v with
    | int n =>
        simp only [InputValidator.validate_number, Rat.den_intCast, if_pos,
          Rat.num_intCast, Except.ok.injEq] at h
        subst h
        simp [InputValidator.validate_number, Rat.den_intCast, Rat.num_intCast]
    | float q =>
        by_cases hq : q.den = 1
        · simp only [InputValidator.validate_number, hq, if_pos, Except.ok.injEq] at h
          subst h
          simp [InputValidator.validate_number, Rat.den_intCast, Rat.num_intCast]
        · simp only [InputValidator.validate_number, hq, if_neg, Except.ok.injEq] at h
          subst h
          simp [InputValidator.validate_number, hq]

/-- Witness for the amended C5: idempotence evaluated on a concrete session
id, project id, address and number. -/
theorem validator_idempotence_amended_witness :
    InputValidator.validate_session_id "123e4567-e89b-12d3-a456-426614174000" =
      .ok "123e4567-e89b-12d3-a456-426614174000" ∧
    InputValidator.validate_project_id "proj-1" = .ok "proj-1" ∧
    InputValidator.validate_address "0123456789abcdef" = .ok "0123456789abcdef" ∧
    InputValidator.validate_number (.int 3) = .ok (.int 3) := by
  have h := validator_idempotence_amended
  refine ⟨h.1 "123E4567-E89B-12D3-A456-426614174000" _ (by rfl),
          h.2.1 " proj-1 " _ (by rfl),
          h.2.2.1 "0x0123456789ABCDEF" _ (by rfl),
          h.2.2.2 (.float 3) _ ?_⟩
  show InputValidator.validate_number (.float 3) = .ok (.int 3)
  simp [InputValidator.validate_number]
